import Mathlib

set_option maxRecDepth 40000

/-!
Shallow embedding of the traffic-logging subsystem of the `ecom-traffic-demo`
repository (a Next.js demo shop instrumented with a Redis-backed traffic
logger and a polling dashboard).

Conventions of the embedding:

* Wall-clock instants are natural numbers (milliseconds since the epoch).
  In `logTraffic` the stored ISO-8601 `timestamp` string and the numeric
  sorted-set score are produced from the same instant
  (`new Date().toISOString()` and `Date.now()` in the same tick), so a
  single numeric `timestamp` field models both.
* The Redis sorted set `traffic:logs` is modelled as a list of
  (score, record) pairs kept in ascending score order; `ZADD`,
  `ZREMRANGEBYRANK` and `ZRANGE ... BYSCORE` are functions on that list.
  The record bodies written by `SET logId json` ride on their index pairs,
  which also models `MGET` resolving every id to its record.
* JavaScript truthiness tests (`if (x)`, `x ? a : b`, `x || d`) on
  possibly-absent strings and numbers are modelled by `Option` matches
  together with the emptiness/zero tests that JS truthiness performs.
* `parseInt(s, 10)` returning `NaN` is modelled as `none`.
-/

/-! ### JavaScript-style string primitives -/

/-- JS `parseInt(s, 10)`: skip leading whitespace, read an optional sign,
then the longest digit prefix; no digits means `NaN`, modelled as `none`. -/
def parseIntJS (s : String) : Option Int :=
  let cs := s.toList.dropWhile Char.isWhitespace
  let signed : Bool × List Char :=
    match cs with
    | '-' :: rest => (true, rest)
    | '+' :: rest => (false, rest)
    | other => (false, other)
  let digits := signed.2.takeWhile Char.isDigit
  if digits.isEmpty then none
  else
    let n : Nat := digits.foldl (fun acc c => acc * 10 + (c.toNat - 48)) 0
    some (if signed.1 then -(n : Int) else (n : Int))

/-- Worker for `splitComma` (JS `String.prototype.split(',')`). -/
def splitCommaList : List Char → List Char → List String
  | [], acc => [String.mk acc.reverse]
  | c :: rest, acc =>
    if c = ',' then String.mk acc.reverse :: splitCommaList rest []
    else splitCommaList rest (c :: acc)

/-- JS `s.split(',')`. -/
def splitComma (s : String) : List String := splitCommaList s.toList []

/-- JS `String.prototype.trim()`. -/
def jsTrim (s : String) : String :=
  String.mk ((s.toList.dropWhile Char.isWhitespace).reverse.dropWhile Char.isWhitespace).reverse

/-- JS `x || d` for a possibly-absent string: absent and `""` are falsy. -/
def jsOrDefault (o : Option String) (d : String) : String :=
  match o with
  | some s => if s = "" then d else s
  | none => d

/-- JS truthiness filter for `Headers.get` results: `null` and `""` are
falsy, every other string is truthy. -/
def truthyStr (o : Option String) : Option String :=
  match o with
  | some s => if s = "" then none else some s
  | none => none

/-! ### Data model (src/types/index.ts, src/utils/traffic-logger.ts) -/

/-- A request's header set; `get` models `Headers.get` (absent ↦ `none`). -/
structure Headers where
  entries : List (String × String)
deriving DecidableEq

def Headers.get (h : Headers) (k : String) : Option String :=
  (h.entries.find? (fun p => p.1 == k)).map (fun p => p.2)

/-- A `TrafficLog` detail record. `timestamp` is the creation instant in
milliseconds; the source stores it as an ISO string and separately uses the
same instant (`Date.now()`) as the sorted-set score. -/
structure TrafficLog where
  timestamp : Nat
  endpoint : String
  method : String
  ip : String
  realIp : String
  userAgent : String
  isBot : Bool
  statusCode : Nat
  headers : List (String × String)
deriving DecidableEq

/-- The request data `logTraffic` consumes: HTTP verb and header set. -/
structure Request where
  method : String
  headers : Headers
deriving DecidableEq

/-! ### Client-IP resolvers (§4.1) -/

/-- `getClientIp` as defined inside `logTraffic` in
src/utils/traffic-logger.ts (authoritative version, lines 300-312):
`cf-connecting-ip`, then `x-real-ip`, then the first entry of the
`x-forwarded-for` chain, else `"unknown"`. -/
def getClientIp (request : Request) : String :=
  match truthyStr (request.headers.get "cf-connecting-ip") with
  | some cfIp => cfIp
  | none =>
    match truthyStr (request.headers.get "x-real-ip") with
    | some realIp => realIp
    | none =>
      match truthyStr (request.headers.get "x-forwarded-for") with
      | some xff =>
        let ips := (splitComma xff).map jsTrim
        match ips with
        | [] => "unknown"
        | ip0 :: _ => if ip0 ≠ "" then ip0 else "unknown"
      | none => "unknown"

/-- `getClientIp` as defined inside `logTraffic` in
src/utils/file-traffic-logger.ts (lines 10-37): it looks only at
`x-forwarded-for`, preferring the second entry of the chain
(`if (ips.length > 1 && ips[1])`), falling back to the first
(`else if (ips.length > 0 && ips[0])`), else `"unknown"`. -/
def fileGetClientIp (request : Request) : String :=
  match truthyStr (request.headers.get "x-forwarded-for") with
  | some xff =>
    let ips := (splitComma xff).map jsTrim
    let second : Option String :=
      match ips with
      | _ :: b :: _ => if b ≠ "" then some b else none
      | _ => none
    match second with
    | some b => b
    | none =>
      match ips with
      | a :: _ => if a ≠ "" then a else "unknown"
      | [] => "unknown"
  | none => "unknown"

/-! ### Detail Store: the `traffic:logs` sorted set (§4.2) -/

/-- `MAX_LOGS` from src/utils/traffic-logger.ts. -/
def MAX_LOGS : Nat := 1000

/-- `Number.MAX_SAFE_INTEGER`, the upper score bound of the
`ZRANGE ... BYSCORE` query in `getTrafficLogs`. -/
def MAX_SAFE_INTEGER : Int := 9007199254740991

/-- The Detail Store: the `traffic:logs` sorted set, ascending by score,
each member id resolved to its stored record. -/
structure DetailStore where
  entries : List (Nat × TrafficLog)
deriving DecidableEq

/-- `ZADD traffic:logs score member`: insert keeping ascending score order.
A new member with a score equal to existing ones lands after them (the tie
order among equal scores is irrelevant to every claim; see §5 of the spec). -/
def zadd : List (Nat × TrafficLog) → Nat → TrafficLog → List (Nat × TrafficLog)
  | [], score, e => [(score, e)]
  | p :: rest, score, e =>
    if score < p.1 then (score, e) :: p :: rest
    else p :: zadd rest score e

/-- `ZREMRANGEBYRANK key 0 -(n+1)` (and JS `arr.slice(-n)`): keep only the
`n` highest-ranked (newest) elements. -/
def keepLast {α : Type} (n : Nat) (l : List α) : List α :=
  l.drop (l.length - n)

/-- The `TrafficLog` record `logTraffic` builds from a request
(src/utils/traffic-logger.ts lines 316-326). -/
def buildLogEntry (req : Request) (endpoint : String) (status : Nat) (now : Nat) : TrafficLog :=
  { timestamp := now
    endpoint := endpoint
    method := req.method
    ip := getClientIp req
    realIp := getClientIp req
    userAgent := jsOrDefault (req.headers.get "user-agent") "unknown"
    isBot := req.headers.get "x-kasada-classification" == some "bad-bot"
    statusCode := status
    headers := req.headers.entries }

/-- The three sequential Redis writes of `logTraffic`
(src/utils/traffic-logger.ts lines 328-332): `SET logId json EX 1800`,
`ZADD traffic:logs score logId`, `ZREMRANGEBYRANK traffic:logs 0 -1001`. -/
def storeAppend (e : TrafficLog) (score : Nat) (st : DetailStore) : DetailStore :=
  ⟨keepLast MAX_LOGS (zadd st.entries score e)⟩

/-- `logTraffic` (src/utils/traffic-logger.ts, authoritative version,
lines 291-337), on the success path: build the entry and append it with the
current instant as score. -/
def logTraffic (req : Request) (endpoint : String) (status : Nat) (now : Nat)
    (st : DetailStore) : DetailStore :=
  storeAppend (buildLogEntry req endpoint status now) now st

/-! ### Local-file fallback store (src/utils/file-traffic-logger.ts) -/

/-- The record built by the file logger (lines 41-51); it resolves the
client IP with its own `x-forwarded-for`-only resolver. -/
def fileBuildLogEntry (req : Request) (endpoint : String) (status : Nat) (now : Nat) :
    TrafficLog :=
  { timestamp := now
    endpoint := endpoint
    method := req.method
    ip := fileGetClientIp req
    realIp := fileGetClientIp req
    userAgent := jsOrDefault (req.headers.get "user-agent") "unknown"
    isBot := req.headers.get "x-kasada-classification" == some "bad-bot"
    statusCode := status
    headers := req.headers.entries }

/-- `logTraffic` of src/utils/file-traffic-logger.ts (lines 74-83):
`logs.push(entry)`, then `if (logs.length > 1000) logs = logs.slice(-1000)`. -/
def fileLogTraffic (req : Request) (endpoint : String) (status : Nat) (now : Nat)
    (logs : List TrafficLog) : List TrafficLog :=
  let logs2 := logs ++ [fileBuildLogEntry req endpoint status now]
  if logs2.length > 1000 then keepLast 1000 logs2 else logs2

/-! ### Detail Store query: `getTrafficLogs` (traffic-logger.ts lines 342-403) -/

/-- The final `filteredLogs.sort((a, b) => tb - ta)`: a stable sort putting
the newest timestamp first (V8's `Array.prototype.sort` is stable, as is
`List.mergeSort`). -/
def sortNewestFirst (logs : List TrafficLog) : List TrafficLog :=
  logs.mergeSort (fun a b => decide (b.timestamp ≤ a.timestamp))

/-- `const minScore = options.since ? options.since + 1 : 0` (note the JS
truthiness: `since = 0` behaves like an absent `since`). -/
def scoreMin (sinceOpt : Option Int) : Int :=
  match sinceOpt with
  | some s => if s ≠ 0 then s + 1 else 0
  | none => 0

/-- `if (options.limit && logIds.length > options.limit) logIds =
logIds.slice(-options.limit)`. -/
def applyLimit (limitOpt : Option Nat) (logIds : List (Nat × TrafficLog)) :
    List (Nat × TrafficLog) :=
  match limitOpt with
  | some lim => if lim ≠ 0 ∧ logIds.length > lim then keepLast lim logIds else logIds
  | none => logIds

/-- `if (options.endpoint) filteredLogs = filteredLogs.filter(log =>
log.endpoint === options.endpoint)`. -/
def filterEndpoint (o : Option String) (logs : List TrafficLog) : List TrafficLog :=
  match o with
  | some e => if e ≠ "" then logs.filter (fun lg => lg.endpoint == e) else logs
  | none => logs

/-- `if (options.method) ...` -/
def filterMethod (o : Option String) (logs : List TrafficLog) : List TrafficLog :=
  match o with
  | some m => if m ≠ "" then logs.filter (fun lg => lg.method == m) else logs
  | none => logs

/-- `if (options.isBot !== undefined) ...` -/
def filterIsBot (o : Option Bool) (logs : List TrafficLog) : List TrafficLog :=
  match o with
  | some b => logs.filter (fun lg => lg.isBot == b)
  | none => logs

/-- `getTrafficLogs(options)`: `ZRANGE traffic:logs minScore MAX_SAFE_INTEGER
BYSCORE` with `minScore = options.since ? options.since + 1 : 0`, then
`slice(-limit)` when a (truthy) limit is given and exceeded, then `MGET`,
then the endpoint/method/isBot filters, then the newest-first sort.
Parameters mirror the `options` fields; absent fields are `none`. -/
def getTrafficLogs (st : DetailStore) (endpointOpt methodOpt : Option String)
    (isBotOpt : Option Bool) (sinceOpt : Option Int) (limitOpt : Option Nat) :
    List TrafficLog :=
  sortNewestFirst (filterIsBot isBotOpt (filterMethod methodOpt (filterEndpoint endpointOpt
    ((applyLimit limitOpt (st.entries.filter
      (fun p => decide (scoreMin sinceOpt ≤ (p.1 : Int))
        && decide ((p.1 : Int) ≤ MAX_SAFE_INTEGER)))).map (fun p => p.2)))))

/-! ### Incremental endpoint (src/app/api/traffic/incremental/route.ts,
authoritative version, lines 121-175) -/

/-- Outcome of the incremental `GET`: a 400 for an unparsable `since`, or a
200 carrying the `logs` array and the `latestTimestamp` cursor. -/
inductive IncResult where
  | badRequest : IncResult
  | ok : List TrafficLog → Int → IncResult
deriving DecidableEq

def IncResult.status : IncResult → Nat
  | .badRequest => 400
  | .ok _ _ => 200

/-- `const limit = 100` in the incremental route. -/
def INCREMENTAL_LIMIT : Nat := 100

/-- The incremental route after parameter parsing: fetch logs newer than
`since` (max 100), take the newest fetched timestamp as the next cursor,
falling back to the caller's `since`, then to `Date.now()`. -/
def incrementalCore (since : Option Int) (now : Nat) (st : DetailStore) :
    List TrafficLog × Int :=
  let newLogs := getTrafficLogs st none none none since (some INCREMENTAL_LIMIT)
  let latestLogTimestampMs : Option Int :=
    match newLogs with
    | [] => none
    | lg :: _ => some (lg.timestamp : Int)
  (newLogs, latestLogTimestampMs.getD (since.getD (now : Int)))

/-- The incremental route `GET`, including `since` parsing: an absent or
empty parameter is falsy (`lastTimestampStr ? parseInt(...) : undefined`),
an unparsable one yields `{ status: 400 }`. -/
def incrementalGET (sinceStr : Option String) (now : Nat) (st : DetailStore) : IncResult :=
  match sinceStr with
  | none =>
    let r := incrementalCore none now st
    .ok r.1 r.2
  | some s =>
    if s = "" then
      let r := incrementalCore none now st
      .ok r.1 r.2
    else
      match parseIntJS s with
      | none => .badRequest
      | some n =>
        let r := incrementalCore (some n) now st
        .ok r.1 r.2

/-! ### Full query endpoint (src/app/api/traffic/route.ts) -/

/-- `isBot` query parameter decoding: `=== 'true'` ↦ `some true`,
`=== 'false'` ↦ `some false`, anything else ↦ `undefined`. -/
def parseIsBotParam (v : Option String) : Option Bool :=
  if v == some "true" then some true
  else if v == some "false" then some false
  else none

/-- The traffic route `GET` (lines 8-70). In production it delegates to
`getTrafficLogs` (whose authoritative version consumes no `timeWindow`
option, so the parsed `timeWindow` is discarded); in development it filters
the local file's records in place. A `NaN` `timeWindow` and an absent one
are both falsy downstream, so both are modelled as `none`. The handler has
no validation branch: it always answers 200 on the non-exceptional path. -/
def trafficGET (isProduction : Bool) (st : DetailStore) (fileLogs : List TrafficLog)
    (now : Nat) (endpointStr timeWindowStr methodStr isBotStr : Option String) :
    Nat × List TrafficLog :=
  let timeWindow : Option Int :=
    match timeWindowStr with
    | some s => if s ≠ "" then parseIntJS s else none
    | none => none
  let isBot := parseIsBotParam isBotStr
  if isProduction then
    (200, getTrafficLogs st endpointStr methodStr isBot none none)
  else
    let logs := fileLogs
    let logs :=
      match endpointStr with
      | some e => if e ≠ "" then logs.filter (fun lg => lg.endpoint == e) else logs
      | none => logs
    let logs :=
      match timeWindow with
      | some w =>
        if w ≠ 0 then
          logs.filter (fun lg => decide ((now : Int) - w * 60000 ≤ (lg.timestamp : Int)))
        else logs
      | none => logs
    let logs :=
      match methodStr with
      | some m => if m ≠ "" then logs.filter (fun lg => lg.method == m) else logs
      | none => logs
    let logs :=
      match isBot with
      | some b => logs.filter (fun lg => lg.isBot == b)
      | none => logs
    (200, logs)

/-! ### Counter Store and dashboard aggregate (§4.3 / §4.5)

The dashboard-data route imports `getDashboardTrafficCounts` from
`@/utils/traffic-logger`, but no version of that file in the repository
defines it, so the Counter Store is modelled from the spec. -/

/-- The spec's tracked endpoints (glossary / §3). -/
def trackedEndpoints : List String := ["/api/auth/login", "/api/checkout"]

/-- The second an event's millisecond timestamp falls in. -/
def eventSecond (e : TrafficLog) : Nat := e.timestamp / 1000

/-- Modelled from the spec: the CounterBucket retention window, "expires
after a fixed retention window (15 minutes)" (§3). -/
def COUNTER_RETENTION_SECONDS : Nat := 900

/-- Modelled from the spec: the Counter Store's per-second counter for
endpoint `ep` at second `sec`, observed at query time `querySec` —
`increment(endpoint, atSecond)` is invoked once per ingested event of a
tracked endpoint (§4.4 step 4), and the bucket expires once the retention
window has passed (§3). Missing implementation: `getDashboardTrafficCounts`
and the increment path are absent from src/. -/
def counterValue (events : List TrafficLog) (querySec : Nat) (ep : String) (sec : Nat) : Nat :=
  if querySec ≤ sec + COUNTER_RETENTION_SECONDS then
    (events.filter (fun e => e.endpoint == ep && eventSecond e == sec)).length
  else 0

/-- Modelled from the spec: the per-endpoint sum of one aggregation bucket —
"for every bucket of width `bucketWidthSeconds` spanning [start, end), sums
all per-second counters falling in that bucket" (§4.3); seconds outside the
queried window contribute nothing. -/
def bucketTotal (events : List TrafficLog) (querySec : Nat) (ep : String)
    (bucketStart width endS : Nat) : Nat :=
  ((List.range width).map (fun j =>
    if bucketStart + j < endS then counterValue events querySec ep (bucketStart + j) else 0)).sum

/-- Number of buckets of width `width` needed to span `[startS, endS)`. -/
def numBuckets (startS endS width : Nat) : Nat := (endS - startS + width - 1) / width

/-- A dashboard aggregate row, `{ timestamp, loginCount, checkoutCount }`
(spec §6, response shape of the dashboard aggregate). -/
structure DashboardBucket where
  timestamp : Nat
  loginCount : Nat
  checkoutCount : Nat
deriving DecidableEq

/-- Modelled from the spec: `getDashboardTrafficCounts({ startTimeSeconds,
endTimeSeconds, intervalSeconds })` — the Counter Store aggregation the
dashboard-data route calls: one row per bucket, with per-tracked-endpoint
sums of the per-second counters (queried at `endTimeSeconds`, the route's
`nowSeconds`). -/
def getDashboardTrafficCounts (startTimeSeconds endTimeSeconds intervalSeconds : Nat)
    (events : List TrafficLog) : List DashboardBucket :=
  (List.range (numBuckets startTimeSeconds endTimeSeconds intervalSeconds)).map (fun i =>
    { timestamp := startTimeSeconds + i * intervalSeconds
      loginCount := bucketTotal events endTimeSeconds "/api/auth/login"
        (startTimeSeconds + i * intervalSeconds) intervalSeconds endTimeSeconds
      checkoutCount := bucketTotal events endTimeSeconds "/api/checkout"
        (startTimeSeconds + i * intervalSeconds) intervalSeconds endTimeSeconds })

/-- Outcome of the dashboard-data `GET`. -/
inductive DashResult where
  | badRequest : DashResult
  | ok : List DashboardBucket → DashResult
deriving DecidableEq

def DashResult.status : DashResult → Nat
  | .badRequest => 400
  | .ok _ => 200

/-- The dashboard-data route `GET` (src/app/api/auth/login/route.ts file,
dashboard-data section, lines 227-272): `parseInt(param || default)` for
both numeric parameters, 400 when either is `NaN` or non-positive, else the
Counter Store aggregation over the interval-aligned window. -/
def dashboardDataGET (windowMinutesStr intervalSecondsStr : Option String)
    (nowSeconds : Nat) (events : List TrafficLog) : DashResult :=
  match parseIntJS (jsOrDefault windowMinutesStr "10"),
        parseIntJS (jsOrDefault intervalSecondsStr "60") with
  | some w, some i =>
    if w ≤ 0 ∨ i ≤ 0 then .badRequest
    else
      let startTimeSeconds : Int := (nowSeconds : Int) - w * 60
      let alignedStartTimeSeconds : Int := (Int.fdiv startTimeSeconds i) * i
      .ok (getDashboardTrafficCounts alignedStartTimeSeconds.toNat nowSeconds i.toNat events)
  | _, _ => .badRequest

/-! ### Login endpoint (src/app/api/auth/login/route.ts lines 19-76) -/

/-- A stored user record (src/data/users.json entries include the plain-text
password field the handler compares against). -/
structure User where
  id : Nat
  name : String
  email : String
  password : String
deriving DecidableEq

/-- The parsed login request body. -/
structure LoginBody where
  email : String
  password : String
deriving DecidableEq

/-- `POST /api/auth/login`. Returns the list of `logTraffic` calls the
handler makes, as (endpoint label, status) pairs in order, together with the
HTTP status of the response. `bodyOpt = none` models a body that makes
`req.json()` throw (handled by the catch block: log 500, respond 500).
In the invalid-credentials branch the source first runs
`console.log('Calling logTraffic for endpoint:', endpoint, 'with status:', status)`
(line 52) where neither `endpoint` nor `status` is in scope, so evaluating
the arguments throws a `ReferenceError`; control lands in the handler's
catch block, which calls `logTraffic(req, '/api/auth/login', 500)` and
responds 500. -/
def loginPOST (users : List User) (bodyOpt : Option LoginBody) : List (String × Nat) × Nat :=
  match bodyOpt with
  | none => ([("/api/auth/login", 500)], 500)
  | some body =>
    if body.email = "" ∨ body.password = "" then
      ([("/api/auth/login", 400)], 400)
    else
      match users.find? (fun u => u.email == body.email) with
      | none => ([("/api/auth/login", 500)], 500)
      | some user =>
        if user.password ≠ body.password then
          ([("/api/auth/login", 500)], 500)
        else
          ([("/api/auth/login", 200)], 200)

/-! ### Write-path failure model (for the error-swallowing contract) -/

/-- Which of the three sequential Redis writes inside `logTraffic` throw
(timeouts, connection failures, ...). -/
structure WriteOracle where
  setFails : Bool
  zaddFails : Bool
  zremFails : Bool
deriving DecidableEq

/-- A store operation's outcome: a normal return, or an exception
propagating, each with the store state reached so far. -/
inductive WriteOutcome where
  | ok : DetailStore → WriteOutcome
  | thrown : DetailStore → WriteOutcome
deriving DecidableEq

def WriteOutcome.isOk : WriteOutcome → Bool
  | .ok _ => true
  | .thrown _ => false

/-- The try-block body of `logTraffic` under a failure oracle: `SET` (the
record body; the index is untouched), then `ZADD`, then `ZREMRANGEBYRANK`,
each aborting the rest when it throws. -/
def logTrafficAttempt (o : WriteOracle) (req : Request) (endpoint : String)
    (status : Nat) (now : Nat) (st : DetailStore) : WriteOutcome :=
  let entry := buildLogEntry req endpoint status now
  if o.setFails then .thrown st
  else if o.zaddFails then .thrown st
  else
    let afterZadd : DetailStore := ⟨zadd st.entries now entry⟩
    if o.zremFails then .thrown afterZadd
    else .ok ⟨keepLast MAX_LOGS afterZadd.entries⟩

/-- `logTraffic` as its caller observes it: the whole body sits in
`try { ... } catch (error) { console.error(...) }` (lines 294-336), so a
thrown store error is swallowed and the function returns normally with
whatever state the store reached. -/
def logTrafficCaught (o : WriteOracle) (req : Request) (endpoint : String)
    (status : Nat) (now : Nat) (st : DetailStore) : WriteOutcome :=
  match logTrafficAttempt o req endpoint status now st with
  | .ok st2 => .ok st2
  | .thrown st2 => .ok st2

/-! ### Polling protocol model (spec §8.2 / incremental endpoint)

A client interleaves ingestion appends with incremental queries, echoing
each response's `latestTimestamp` back as the next `since` (spec §4.5:
"the caller never re-fetches already-seen events"). -/

/-- One step of an interleaving: an append of an event (scored with its own
timestamp, the ingestion instant), or an incremental query issued at wall
time `t`. -/
inductive Step where
  | app : TrafficLog → Step
  | query : Nat → Step
deriving DecidableEq

/-- The wall-clock instant at which a step happens. -/
def stepTime : Step → Nat
  | .app e => e.timestamp
  | .query t => t

/-- The events a trace appends, in order. -/
def appendedEvents : List Step → List TrafficLog
  | [] => []
  | .app e :: r => e :: appendedEvents r
  | .query _ :: r => appendedEvents r

/-- Client + store state while a trace runs: the Detail Store, the client's
cursor (`none` before the first response), and the `logs` arrays of the
responses received so far. -/
structure PollState where
  store : DetailStore
  cursor : Option Int
  outs : List (List TrafficLog)
deriving DecidableEq

def runStep (sigma : PollState) : Step → PollState
  | .app e => ⟨storeAppend e e.timestamp sigma.store, sigma.cursor, sigma.outs⟩
  | .query t =>
    let r := incrementalCore sigma.cursor t sigma.store
    ⟨sigma.store, some r.2, sigma.outs ++ [r.1]⟩

def runTrace (sigma : PollState) : List Step → PollState
  | [] => sigma
  | s :: rest => runTrace (runStep sigma s) rest

def initState : PollState := ⟨⟨[]⟩, none, []⟩

/-- All events delivered across the received responses, each response's
newest-first `logs` array put back into oldest-first order, concatenated in
response order. -/
def collected (sigma : PollState) : List TrafficLog :=
  (sigma.outs.map List.reverse).flatten

/-- `wfGaps n steps`: in `steps`, at most `INCREMENTAL_LIMIT` appends occur
before each query (`n` appends are already pending), and no append is left
after the last query. -/
def wfGaps : Nat → List Step → Bool
  | n, [] => n == 0
  | n, .app _ :: r => wfGaps (n + 1) r
  | n, .query _ :: r => decide (n ≤ INCREMENTAL_LIMIT) && wfGaps 0 r

/-- The (score, record) index pairs `logTraffic` writes for a list of
events, scored by ingestion instant. -/
def pairsOf (l : List TrafficLog) : List (Nat × TrafficLog) :=
  l.map (fun e => (e.timestamp, e))

/-- The Detail Store holding exactly the newest `MAX_LOGS` of the events
appended so far (what the capped sorted set retains). -/
def storeOf (l : List TrafficLog) : DetailStore :=
  ⟨(pairsOf l).drop (l.length - MAX_LOGS)⟩

/-! ### Helper lemmas: the newest-first sort -/

theorem sortNewestFirst_perm (l : List TrafficLog) : (sortNewestFirst l).Perm l :=
  List.mergeSort_perm l _

theorem sortNewestFirst_sorted (l : List TrafficLog) :
    (sortNewestFirst l).Pairwise (fun a b => b.timestamp ≤ a.timestamp) := by
  have h := @List.sorted_mergeSort TrafficLog
    (fun a b => decide (b.timestamp ≤ a.timestamp))
    (by intro a b c hab hbc; simp only [decide_eq_true_eq] at hab hbc ⊢; omega)
    (by intro a b; simp only [Bool.or_eq_true, decide_eq_true_eq]; omega) l
  exact h.imp (by intro a b hab; simpa using hab)

theorem sortNewestFirst_of_ascending {l : List TrafficLog}
    (h : l.Pairwise (fun a b => a.timestamp < b.timestamp)) :
    sortNewestFirst l = l.reverse := by
  haveI : IsAntisymm TrafficLog (fun a b => b.timestamp < a.timestamp ∨ a = b) := by
    constructor
    intro a b hab hba
    rcases hab with h1 | h1
    · rcases hba with h2 | h2
      · omega
      · exact h2.symm
    · exact h1
  have hperm : (sortNewestFirst l).Perm l.reverse :=
    (sortNewestFirst_perm l).trans (List.reverse_perm l).symm
  have hnodup : (l.map (fun e => e.timestamp)).Nodup := by
    have : l.Pairwise (fun a b => a.timestamp ≠ b.timestamp) :=
      h.imp (by intro a b hab; omega)
    exact (List.pairwise_map).2 this
  have hnodup2 : ((sortNewestFirst l).map (fun e => e.timestamp)).Nodup := by
    have hp : ((sortNewestFirst l).map (fun e => e.timestamp)).Perm
        (l.map (fun e => e.timestamp)) := (sortNewestFirst_perm l).map _
    exact hp.nodup_iff.2 hnodup
  have hne : (sortNewestFirst l).Pairwise (fun a b => a.timestamp ≠ b.timestamp) :=
    (List.pairwise_map).1 hnodup2
  have hs1 : (sortNewestFirst l).Pairwise (fun a b => b.timestamp < a.timestamp ∨ a = b) := by
    have hand := (sortNewestFirst_sorted l).and hne
    exact hand.imp (by intro a b hab; left; omega)
  have hs2 : (l.reverse).Pairwise (fun a b => b.timestamp < a.timestamp ∨ a = b) := by
    have : l.Pairwise (fun a b => a.timestamp < b.timestamp ∨ b = a) :=
      h.imp (by intro a b hab; left; omega)
    exact (List.pairwise_reverse).2 this
  exact List.eq_of_perm_of_sorted hperm hs1 hs2

/-! ### Helper lemmas: sorted-set primitives -/

theorem zadd_eq_append {l : List (Nat × TrafficLog)} {s : Nat} {e : TrafficLog}
    (h : ∀ p ∈ l, p.1 ≤ s) : zadd l s e = l ++ [(s, e)] := by
  induction l with
  | nil => rfl
  | cons p rest ih =>
    have hp : p.1 ≤ s := h p (List.mem_cons_self p rest)
    rw [zadd, if_neg (by omega), ih (fun q hq => h q (List.mem_cons_of_mem p hq))]
    rfl

theorem pairsOf_append (A : List TrafficLog) (e : TrafficLog) :
    pairsOf (A ++ [e]) = pairsOf A ++ [(e.timestamp, e)] := by
  simp [pairsOf]

theorem mem_pairsOf {A : List TrafficLog} {p : Nat × TrafficLog} (hp : p ∈ pairsOf A) :
    p.1 = p.2.timestamp ∧ p.2 ∈ A := by
  obtain ⟨x, hx, rfl⟩ := List.mem_map.1 hp
  exact ⟨rfl, hx⟩

theorem keepLast_zadd_tail (m : Nat) (A : List TrafficLog) (e : TrafficLog)
    (h : ∀ x ∈ A, x.timestamp ≤ e.timestamp) :
    keepLast m (zadd ((pairsOf A).drop (A.length - m)) e.timestamp e)
      = (pairsOf (A ++ [e])).drop ((A ++ [e]).length - m) := by
  have hz : zadd ((pairsOf A).drop (A.length - m)) e.timestamp e
      = (pairsOf A).drop (A.length - m) ++ [(e.timestamp, e)] := by
    apply zadd_eq_append
    intro p hp
    have hmem : p ∈ pairsOf A := (List.drop_sublist _ _).subset hp
    obtain ⟨hts, hpa⟩ := mem_pairsOf hmem
    rw [hts]
    exact h p.2 hpa
  have hlenpairs : (pairsOf A).length = A.length := List.length_map A _
  have hD : (pairsOf A).drop (A.length - m) ++ [(e.timestamp, e)]
      = (pairsOf A ++ [(e.timestamp, e)]).drop (A.length - m) := by
    rw [List.drop_append_of_le_length (by omega)]
  rw [keepLast, hz, hD, List.drop_drop, pairsOf_append]
  congr 1
  rw [List.length_drop, List.length_append, List.length_append, hlenpairs]
  simp only [List.length_cons, List.length_nil]
  omega

theorem storeAppend_storeOf {A : List TrafficLog} {e : TrafficLog}
    (h : ∀ x ∈ A, x.timestamp ≤ e.timestamp) :
    storeAppend e e.timestamp (storeOf A) = storeOf (A ++ [e]) := by
  have h1 : (storeOf A).entries = (pairsOf A).drop (A.length - MAX_LOGS) := rfl
  show DetailStore.mk (keepLast MAX_LOGS (zadd (storeOf A).entries e.timestamp e)) = _
  rw [h1, keepLast_zadd_tail MAX_LOGS A e h]
  rfl

/-! ### Helper lemmas: the query pipeline stages -/

theorem filterEndpoint_subset (o : Option String) (logs : List TrafficLog) :
    filterEndpoint o logs ⊆ logs := by
  cases o with
  | none => exact fun x hx => hx
  | some e =>
    show (if e ≠ "" then logs.filter (fun lg => lg.endpoint == e) else logs) ⊆ logs
    split
    · exact (List.filter_sublist _).subset
    · exact fun x hx => hx

theorem filterMethod_subset (o : Option String) (logs : List TrafficLog) :
    filterMethod o logs ⊆ logs := by
  cases o with
  | none => exact fun x hx => hx
  | some m =>
    show (if m ≠ "" then logs.filter (fun lg => lg.method == m) else logs) ⊆ logs
    split
    · exact (List.filter_sublist _).subset
    · exact fun x hx => hx

theorem filterIsBot_subset (o : Option Bool) (logs : List TrafficLog) :
    filterIsBot o logs ⊆ logs := by
  cases o with
  | none => exact fun x hx => hx
  | some b => exact (List.filter_sublist _).subset

theorem applyLimit_eq_drop (lim : Nat) (ids : List (Nat × TrafficLog)) (hlim : lim ≠ 0) :
    applyLimit (some lim) ids = ids.drop (ids.length - lim) := by
  show (if lim ≠ 0 ∧ ids.length > lim then keepLast lim ids else ids)
    = ids.drop (ids.length - lim)
  split
  · rfl
  · rename_i hcond
    have h0 : ids.length - lim = 0 := by
      rcases Nat.lt_or_ge lim ids.length with hlt | hge
      · exact absurd ⟨hlim, hlt⟩ hcond
      · omega
    rw [h0, List.drop_zero]

theorem applyLimit_subset (limitOpt : Option Nat) (ids : List (Nat × TrafficLog)) :
    applyLimit limitOpt ids ⊆ ids := by
  cases limitOpt with
  | none => exact fun x hx => hx
  | some lim =>
    show (if lim ≠ 0 ∧ ids.length > lim then keepLast lim ids else ids) ⊆ ids
    split
    · exact (List.drop_sublist _ _).subset
    · exact fun x hx => hx

theorem filter_score_split (D P : List (Nat × TrafficLog)) (ms : Int)
    (hD : ∀ p ∈ D, ¬ (ms ≤ (p.1 : Int) ∧ (p.1 : Int) ≤ MAX_SAFE_INTEGER))
    (hP : ∀ p ∈ P, ms ≤ (p.1 : Int) ∧ (p.1 : Int) ≤ MAX_SAFE_INTEGER) :
    (D ++ P).filter
        (fun p => decide (ms ≤ (p.1 : Int)) && decide ((p.1 : Int) ≤ MAX_SAFE_INTEGER))
      = P := by
  rw [List.filter_append]
  have h1 : D.filter
      (fun p => decide (ms ≤ (p.1 : Int)) && decide ((p.1 : Int) ≤ MAX_SAFE_INTEGER)) = [] := by
    rw [List.filter_eq_nil_iff]
    intro p hp
    have := hD p hp
    simp only [Bool.and_eq_true, decide_eq_true_eq]
    tauto
  have h2 : P.filter
      (fun p => decide (ms ≤ (p.1 : Int)) && decide ((p.1 : Int) ≤ MAX_SAFE_INTEGER)) = P := by
    rw [List.filter_eq_self]
    intro p hp
    have := hP p hp
    simp only [Bool.and_eq_true, decide_eq_true_eq]
    tauto
  rw [h1, h2, List.nil_append]

theorem scoreMin_of_ne_zero {c : Int} (hc : c ≠ 0) : scoreMin (some c) = c + 1 :=
  if_pos hc

theorem scoreMin_zero_cases {sinceOpt : Option Int}
    (hs : sinceOpt = none ∨ sinceOpt = some 0) : scoreMin sinceOpt = 0 := by
  rcases hs with h | h <;> subst h <;> simp [scoreMin]

/-! ### Helper lemmas: evaluating `getTrafficLogs` on well-formed stores -/

theorem getTrafficLogs_cursor_eval (D P : List (Nat × TrafficLog)) (c : Int) (lim : Nat)
    (hc : c ≠ 0) (hlim : lim ≠ 0)
    (hD : ∀ p ∈ D, (p.1 : Int) ≤ c)
    (hP : ∀ p ∈ P, c < (p.1 : Int) ∧ (p.1 : Int) ≤ MAX_SAFE_INTEGER)
    (hlen : P.length ≤ lim)
    (hasc : (P.map (fun p => p.2)).Pairwise (fun a b => a.timestamp < b.timestamp)) :
    getTrafficLogs ⟨D ++ P⟩ none none none (some c) (some lim)
      = (P.map (fun p => p.2)).reverse := by
  unfold getTrafficLogs
  have hent : (DetailStore.mk (D ++ P)).entries = D ++ P := rfl
  rw [hent, scoreMin_of_ne_zero hc]
  rw [filter_score_split D P (c + 1)
    (by intro p hp; have := hD p hp; omega)
    (by intro p hp; have := hP p hp; omega)]
  rw [applyLimit_eq_drop lim P hlim]
  have h0 : P.length - lim = 0 := by omega
  rw [h0, List.drop_zero]
  show sortNewestFirst (P.map (fun p => p.2)) = _
  exact sortNewestFirst_of_ascending hasc

theorem getTrafficLogs_start_eval (P : List (Nat × TrafficLog)) (sinceOpt : Option Int)
    (lim : Nat) (hs : sinceOpt = none ∨ sinceOpt = some 0) (hlim : lim ≠ 0)
    (hP : ∀ p ∈ P, (p.1 : Int) ≤ MAX_SAFE_INTEGER)
    (hasc : (P.map (fun p => p.2)).Pairwise (fun a b => a.timestamp < b.timestamp)) :
    getTrafficLogs ⟨P⟩ none none none sinceOpt (some lim)
      = ((P.map (fun p => p.2)).drop (P.length - lim)).reverse := by
  unfold getTrafficLogs
  have hent : (DetailStore.mk P).entries = P := rfl
  rw [hent, scoreMin_zero_cases hs]
  have hfilter : P.filter
      (fun p => decide ((0 : Int) ≤ (p.1 : Int)) && decide ((p.1 : Int) ≤ MAX_SAFE_INTEGER))
      = P := by
    rw [List.filter_eq_self]
    intro p hp
    simp only [Bool.and_eq_true, decide_eq_true_eq]
    exact ⟨Int.ofNat_nonneg p.1, hP p hp⟩
  rw [hfilter, applyLimit_eq_drop lim P hlim]
  show sortNewestFirst ((P.drop (P.length - lim)).map (fun p => p.2)) = _
  rw [List.map_drop]
  exact sortNewestFirst_of_ascending (hasc.sublist (List.drop_sublist _ _))

theorem getTrafficLogs_nolimit_eval (P : List (Nat × TrafficLog)) (sinceOpt : Option Int)
    (hs : sinceOpt = none ∨ sinceOpt = some 0)
    (hP : ∀ p ∈ P, (p.1 : Int) ≤ MAX_SAFE_INTEGER)
    (hasc : (P.map (fun p => p.2)).Pairwise (fun a b => a.timestamp < b.timestamp)) :
    getTrafficLogs ⟨P⟩ none none none sinceOpt none = (P.map (fun p => p.2)).reverse := by
  unfold getTrafficLogs
  have hent : (DetailStore.mk P).entries = P := rfl
  rw [hent, scoreMin_zero_cases hs]
  have hfilter : P.filter
      (fun p => decide ((0 : Int) ≤ (p.1 : Int)) && decide ((p.1 : Int) ≤ MAX_SAFE_INTEGER))
      = P := by
    rw [List.filter_eq_self]
    intro p hp
    simp only [Bool.and_eq_true, decide_eq_true_eq]
    exact ⟨Int.ofNat_nonneg p.1, hP p hp⟩
  rw [hfilter]
  show sortNewestFirst (P.map (fun p => p.2)) = _
  exact sortNewestFirst_of_ascending hasc

/-! ### Helper lemmas: the polling protocol -/

theorem pairsOf_map_snd (l : List TrafficLog) : (pairsOf l).map (fun p => p.2) = l := by
  induction l with
  | nil => rfl
  | cons e t ih =>
    simp only [pairsOf, List.map_cons] at ih ⊢
    rw [ih]

theorem pairsOf_take (l : List TrafficLog) (n : Nat) :
    (pairsOf l).take n = pairsOf (l.take n) := by
  simp [pairsOf, List.map_take]

theorem pairsOf_drop (l : List TrafficLog) (n : Nat) :
    (pairsOf l).drop n = pairsOf (l.drop n) := by
  simp [pairsOf, List.map_drop]

/-- Invariant holding between the steps of a polling trace: `A` lists the
events appended so far (ascending, positive timestamps, all within the safe
range and not after `clock`, the instant of the last step); the last `p` of
them are pending (appended after the cursor `c`), the rest were delivered
no later than `c`. -/
structure TraceInv (A : List TrafficLog) (c : Option Int) (clock p : Nat) : Prop where
  asc : A.Pairwise (fun a b => a.timestamp < b.timestamp)
  pos : ∀ e ∈ A, 1 ≤ e.timestamp
  le_clock : ∀ e ∈ A, e.timestamp ≤ clock
  ts_safe : ∀ e ∈ A, (e.timestamp : Int) ≤ MAX_SAFE_INTEGER
  p_le : p ≤ A.length
  cursor_none : c = none → p = A.length
  cursor_some : ∀ v, c = some v →
    1 ≤ v ∧ v ≤ (clock : Int)
    ∧ (∀ e ∈ A.take (A.length - p), (e.timestamp : Int) ≤ v)
    ∧ (∀ e ∈ A.drop (A.length - p), v < (e.timestamp : Int))

theorem incrementalCore_eval (A : List TrafficLog) (c : Option Int) (clock t p : Nat)
    (inv : TraceInv A c clock p) (hp : p ≤ INCREMENTAL_LIMIT) :
    incrementalCore c t (storeOf A)
      = ((A.drop (A.length - p)).reverse,
          (match (A.drop (A.length - p)).reverse with
            | [] => c.getD (t : Int)
            | lg :: _ => (lg.timestamp : Int))) := by
  have hM : MAX_LOGS = 1000 := rfl
  have hL : INCREMENTAL_LIMIT = 100 := rfl
  have hquery : getTrafficLogs (storeOf A) none none none c (some INCREMENTAL_LIMIT)
      = (A.drop (A.length - p)).reverse := by
    cases c with
    | none =>
      have hpA : p = A.length := inv.cursor_none rfl
      have hlen0 : A.length - MAX_LOGS = 0 := by omega
      have hstore : storeOf A = ⟨pairsOf A⟩ := by
        unfold storeOf
        rw [hlen0, List.drop_zero]
      rw [hstore, getTrafficLogs_start_eval (pairsOf A) none INCREMENTAL_LIMIT (Or.inl rfl)
        (by rw [hL]; omega)
        (by
          intro q hq
          obtain ⟨hts, hmem⟩ := mem_pairsOf hq
          rw [hts]
          exact inv.ts_safe q.2 hmem)
        (by rw [pairsOf_map_snd]; exact inv.asc)]
      rw [pairsOf_map_snd]
      have hlenpairs : (pairsOf A).length = A.length := List.length_map A _
      rw [hlenpairs]
      have h1 : A.length - INCREMENTAL_LIMIT = A.length - p := by omega
      rw [h1]
    | some v =>
      obtain ⟨hv1, hvclock, hdel, hpend⟩ := inv.cursor_some v rfl
      have hplen : p ≤ A.length := inv.p_le
      have hlenpairs : (pairsOf A).length = A.length := List.length_map A _
      have hdd : ((pairsOf A).drop (A.length - MAX_LOGS)).drop
          ((A.length - p) - (A.length - MAX_LOGS)) = (pairsOf A).drop (A.length - p) := by
        rw [List.drop_drop]
        congr 1
        omega
      have hsplit : ((pairsOf A).drop (A.length - MAX_LOGS)).take
            ((A.length - p) - (A.length - MAX_LOGS))
          ++ (pairsOf A).drop (A.length - p)
          = (pairsOf A).drop (A.length - MAX_LOGS) := by
        rw [← hdd]
        exact List.take_append_drop _ _
      have hstore : storeOf A = ⟨((pairsOf A).drop (A.length - MAX_LOGS)).take
            ((A.length - p) - (A.length - MAX_LOGS))
          ++ (pairsOf A).drop (A.length - p)⟩ := by
        unfold storeOf
        rw [hsplit]
      rw [hstore]
      have htake_mem : ∀ q ∈ ((pairsOf A).drop (A.length - MAX_LOGS)).take
          ((A.length - p) - (A.length - MAX_LOGS)), q ∈ (pairsOf A).take (A.length - p) := by
        intro q hq
        have h1 : ((pairsOf A).drop (A.length - MAX_LOGS)).take
            ((A.length - p) - (A.length - MAX_LOGS))
            = ((pairsOf A).take (A.length - p)).drop (A.length - MAX_LOGS) := by
          rw [List.drop_take]
        rw [h1] at hq
        exact (List.drop_sublist _ _).subset hq
      rw [getTrafficLogs_cursor_eval _ _ v INCREMENTAL_LIMIT (by omega) (by rw [hL]; omega)
        (by
          intro q hq
          have hq2 := htake_mem q hq
          rw [pairsOf_take] at hq2
          obtain ⟨hts, hmem⟩ := mem_pairsOf hq2
          rw [hts]
          exact hdel q.2 hmem)
        (by
          intro q hq
          rw [pairsOf_drop] at hq
          obtain ⟨hts, hmem⟩ := mem_pairsOf hq
          constructor
          · rw [hts]
            exact hpend q.2 hmem
          · rw [hts]
            exact inv.ts_safe q.2 ((List.drop_sublist _ _).subset hmem))
        (by
          rw [List.length_drop, hlenpairs]
          omega)
        (by
          rw [pairsOf_drop, pairsOf_map_snd]
          exact inv.asc.sublist (List.drop_sublist _ _))]
      rw [pairsOf_drop, pairsOf_map_snd]
  unfold incrementalCore
  rw [hquery]
  cases hrev : (A.drop (A.length - p)).reverse with
  | nil => rfl
  | cons lg tl => rfl

theorem traceInv_app {A : List TrafficLog} {c : Option Int} {clock p : Nat}
    (inv : TraceInv A c clock p) (e : TrafficLog)
    (hck : clock < e.timestamp) (hsafe : (e.timestamp : Int) ≤ MAX_SAFE_INTEGER) :
    TraceInv (A ++ [e]) c e.timestamp (p + 1) := by
  have hlen : (A ++ [e]).length = A.length + 1 := by simp
  constructor
  · refine List.pairwise_append.2 ⟨inv.asc, List.pairwise_singleton _ _, ?_⟩
    intro a ha b hb
    rw [List.mem_singleton] at hb
    subst hb
    have := inv.le_clock a ha
    omega
  · intro x hx
    rcases List.mem_append.1 hx with h | h
    · exact inv.pos x h
    · rw [List.mem_singleton] at h
      subst h
      omega
  · intro x hx
    rcases List.mem_append.1 hx with h | h
    · have := inv.le_clock x h
      omega
    · rw [List.mem_singleton] at h
      subst h
      omega
  · intro x hx
    rcases List.mem_append.1 hx with h | h
    · exact inv.ts_safe x h
    · rw [List.mem_singleton] at h
      subst h
      exact hsafe
  · rw [hlen]
    have := inv.p_le
    omega
  · intro hc
    rw [hlen, inv.cursor_none hc]
  · intro v hv
    obtain ⟨h1, h2, h3, h4⟩ := inv.cursor_some v hv
    have hple := inv.p_le
    have hsub : (A ++ [e]).length - (p + 1) = A.length - p := by rw [hlen]; omega
    refine ⟨h1, ?_, ?_, ?_⟩
    · have : (clock : Int) ≤ (e.timestamp : Int) := by exact_mod_cast Nat.le_of_lt hck
      omega
    · intro x hx
      rw [hsub, List.take_append_of_le_length (by omega)] at hx
      exact h3 x hx
    · intro x hx
      rw [hsub, List.drop_append_of_le_length (by omega)] at hx
      rcases List.mem_append.1 hx with h | h
      · exact h4 x h
      · rw [List.mem_singleton] at h
        subst h
        have : (clock : Int) < (x.timestamp : Int) := by exact_mod_cast hck
        omega

theorem traceInv_query_nil {A : List TrafficLog} {c : Option Int} {clock p t : Nat}
    (inv : TraceInv A c clock p) (hck : clock < t)
    (hnil : (A.drop (A.length - p)).reverse = []) :
    TraceInv A (some (c.getD (t : Int))) t 0 := by
  have hple := inv.p_le
  have hpend : A.drop (A.length - p) = [] := by
    rw [← List.reverse_reverse (A.drop (A.length - p)), hnil]
    rfl
  have hp0 : p = 0 := by
    have := List.drop_eq_nil_iff.1 hpend
    omega
  subst hp0
  constructor
  · exact inv.asc
  · exact inv.pos
  · intro x hx
    have := inv.le_clock x hx
    omega
  · exact inv.ts_safe
  · omega
  · intro hc
    simp at hc
  · intro v hv
    rw [Option.some_inj] at hv
    cases c with
    | none =>
      have hlen0 : A.length = 0 := (inv.cursor_none rfl).symm
      have hA : A = [] := List.length_eq_zero.1 hlen0
      subst hA
      simp only [Option.getD_none] at hv
      subst hv
      refine ⟨by omega, le_refl _, ?_, ?_⟩
      · intro x hx
        simp at hx
      · intro x hx
        simp at hx
    | some w =>
      obtain ⟨h1, h2, h3, h4⟩ := inv.cursor_some w rfl
      simp only [Option.getD_some] at hv
      subst hv
      refine ⟨h1, ?_, ?_, ?_⟩
      · have : (clock : Int) ≤ (t : Int) := by exact_mod_cast Nat.le_of_lt hck
        omega
      · exact h3
      · exact h4

theorem traceInv_query_cons {A : List TrafficLog} {c : Option Int} {clock p t : Nat}
    {lg : TrafficLog} {tl : List TrafficLog}
    (inv : TraceInv A c clock p) (hck : clock < t)
    (hrev : (A.drop (A.length - p)).reverse = lg :: tl) :
    TraceInv A (some (lg.timestamp : Int)) t 0 := by
  have hple := inv.p_le
  have hpend_eq : A.drop (A.length - p) = tl.reverse ++ [lg] := by
    rw [← List.reverse_reverse (A.drop (A.length - p)), hrev, List.reverse_cons]
  have hlg_pend : lg ∈ A.drop (A.length - p) := by
    rw [hpend_eq]
    exact List.mem_append.2 (Or.inr (List.mem_singleton.2 rfl))
  have hlg_A : lg ∈ A := (List.drop_sublist _ _).subset hlg_pend
  have hpend_pw : (A.drop (A.length - p)).Pairwise (fun a b => a.timestamp < b.timestamp) :=
    inv.asc.sublist (List.drop_sublist _ _)
  have hmax : ∀ x ∈ A.drop (A.length - p), x.timestamp ≤ lg.timestamp := by
    intro x hx
    rw [hpend_eq] at hx hpend_pw
    obtain ⟨_, _, hcross⟩ := List.pairwise_append.1 hpend_pw
    rcases List.mem_append.1 hx with h | h
    · have := hcross x h lg (List.mem_singleton.2 rfl)
      omega
    · rw [List.mem_singleton] at h
      subst h
      omega
  constructor
  · exact inv.asc
  · exact inv.pos
  · intro x hx
    have := inv.le_clock x hx
    omega
  · exact inv.ts_safe
  · omega
  · intro hc
    simp at hc
  · intro v hv
    rw [Option.some_inj] at hv
    subst hv
    refine ⟨by exact_mod_cast inv.pos lg hlg_A, ?_, ?_, ?_⟩
    · have h1 : lg.timestamp ≤ clock := inv.le_clock lg hlg_A
      have : (lg.timestamp : Int) ≤ (clock : Int) := by exact_mod_cast h1
      have : (clock : Int) < (t : Int) := by exact_mod_cast hck
      omega
    · intro x hx
      rw [Nat.sub_zero, List.take_length] at hx
      have hx2 : x ∈ A.take (A.length - p) ++ A.drop (A.length - p) := by
        rw [List.take_append_drop]
        exact hx
      rcases List.mem_append.1 hx2 with h | h
      · cases c with
        | none =>
          rw [inv.cursor_none rfl, Nat.sub_self, List.take_zero] at h
          simp at h
        | some w =>
          obtain ⟨_, _, h3, h4⟩ := inv.cursor_some w rfl
          have hxw := h3 x h
          have hwlg := h4 lg hlg_pend
          omega
      · have := hmax x h
        exact_mod_cast this
    · intro x hx
      rw [Nat.sub_zero, List.drop_length] at hx
      simp at hx

theorem runTrace_cons (sigma : PollState) (s : Step) (r : List Step) :
    runTrace sigma (s :: r) = runTrace (runStep sigma s) r := rfl

theorem runTrace_nil (sigma : PollState) : runTrace sigma [] = sigma := rfl

theorem runStep_app_mk (st : DetailStore) (c : Option Int) (outs : List (List TrafficLog))
    (e : TrafficLog) :
    runStep ⟨st, c, outs⟩ (Step.app e) = ⟨storeAppend e e.timestamp st, c, outs⟩ := rfl

theorem runStep_query_mk (st : DetailStore) (c : Option Int) (outs : List (List TrafficLog))
    (t : Nat) :
    runStep ⟨st, c, outs⟩ (Step.query t)
      = ⟨st, some (incrementalCore c t st).2, outs ++ [(incrementalCore c t st).1]⟩ := rfl

theorem runTrace_collected (rest : List Step) :
    ∀ (A : List TrafficLog) (c : Option Int) (outs : List (List TrafficLog)) (clock p : Nat),
    TraceInv A c clock p →
    List.Chain' (fun a b => a < b) (clock :: rest.map stepTime) →
    (∀ t ∈ rest.map stepTime, (t : Int) ≤ MAX_SAFE_INTEGER) →
    wfGaps p rest = true →
    collected (runTrace ⟨storeOf A, c, outs⟩ rest)
      = (outs.map List.reverse).flatten ++ A.drop (A.length - p) ++ appendedEvents rest := by
  induction rest with
  | nil =>
    intro A c outs clock p inv hchain hsafe hwf
    have hp0 : p = 0 := by simpa [wfGaps] using hwf
    subst hp0
    simp [collected, runTrace, appendedEvents, Nat.sub_zero, List.drop_length]
  | cons s r ih =>
    intro A c outs clock p inv hchain hsafe hwf
    cases s with
    | app e =>
      simp only [List.map_cons, stepTime] at hchain hsafe
      obtain ⟨hck, hchain2⟩ := List.chain'_cons.1 hchain
      have hsafe_e : (e.timestamp : Int) ≤ MAX_SAFE_INTEGER :=
        hsafe _ (List.mem_cons_self _ _)
      have hsafe2 : ∀ t ∈ r.map stepTime, (t : Int) ≤ MAX_SAFE_INTEGER :=
        fun t ht => hsafe t (List.mem_cons_of_mem _ ht)
      have hwf2 : wfGaps (p + 1) r = true := hwf
      have inv2 := traceInv_app inv e hck hsafe_e
      rw [runTrace_cons, runStep_app_mk, storeAppend_storeOf (by
          intro x hx
          have := inv.le_clock x hx
          omega),
        ih (A ++ [e]) c outs e.timestamp (p + 1) inv2 hchain2 hsafe2 hwf2]
      have hple := inv.p_le
      have hdrop : (A ++ [e]).drop ((A ++ [e]).length - (p + 1))
          = A.drop (A.length - p) ++ [e] := by
        have hlen : (A ++ [e]).length = A.length + 1 := by simp
        rw [hlen, show A.length + 1 - (p + 1) = A.length - p by omega,
          List.drop_append_of_le_length (by omega)]
      rw [hdrop]
      show _ ++ (A.drop (A.length - p) ++ [e]) ++ appendedEvents r
        = _ ++ A.drop (A.length - p) ++ (e :: appendedEvents r)
      simp [List.append_assoc]
    | query t =>
      simp only [List.map_cons, stepTime] at hchain hsafe
      obtain ⟨hck, hchain2⟩ := List.chain'_cons.1 hchain
      have hsafe2 : ∀ u ∈ r.map stepTime, (u : Int) ≤ MAX_SAFE_INTEGER :=
        fun u hu => hsafe u (List.mem_cons_of_mem _ hu)
      have hwfq : (decide (p ≤ INCREMENTAL_LIMIT) && wfGaps 0 r) = true := hwf
      rw [Bool.and_eq_true, decide_eq_true_eq] at hwfq
      obtain ⟨hp100, hwf0⟩ := hwfq
      rw [runTrace_cons, runStep_query_mk, incrementalCore_eval A c clock t p inv hp100]
      cases hrev : (A.drop (A.length - p)).reverse with
      | nil =>
        have hpend : A.drop (A.length - p) = [] := by
          rw [← List.reverse_reverse (A.drop (A.length - p)), hrev]
          rfl
        have inv2 := traceInv_query_nil inv hck hrev
        dsimp only
        rw [ih A (some (c.getD (t : Int))) (outs ++ [[]]) t 0 inv2 hchain2 hsafe2 hwf0]
        rw [Nat.sub_zero, List.drop_length, hpend]
        simp [appendedEvents]
      | cons lg tl =>
        have hpend : A.drop (A.length - p) = tl.reverse ++ [lg] := by
          rw [← List.reverse_reverse (A.drop (A.length - p)), hrev, List.reverse_cons]
        have inv2 := traceInv_query_cons inv hck hrev
        dsimp only
        rw [ih A (some (lg.timestamp : Int)) (outs ++ [lg :: tl]) t 0 inv2 hchain2
          hsafe2 hwf0]
        rw [Nat.sub_zero, List.drop_length, hpend]
        rw [List.map_append, List.flatten_append]
        have hone : ([lg :: tl].map List.reverse).flatten = tl.reverse ++ [lg] := by
          simp [List.reverse_cons]
        rw [hone]
        simp [appendedEvents, List.append_assoc]

theorem traceInv_init : TraceInv [] none 0 0 := by
  constructor
  · exact List.Pairwise.nil
  · intro e he
    simp at he
  · intro e he
    simp at he
  · intro e he
    simp at he
  · simp
  · intro
    rfl
  · intro v hv
    simp at hv

theorem runTrace_apps (L : List TrafficLog) :
    ∀ (B : List TrafficLog) (c : Option Int) (outs : List (List TrafficLog))
      (rest : List Step),
    (B ++ L).Pairwise (fun a b => a.timestamp ≤ b.timestamp) →
    runTrace ⟨storeOf B, c, outs⟩ (L.map Step.app ++ rest)
      = runTrace ⟨storeOf (B ++ L), c, outs⟩ rest := by
  induction L with
  | nil =>
    intro B c outs rest h
    simp
  | cons e L ih =>
    intro B c outs rest h
    have hBe : ∀ x ∈ B, x.timestamp ≤ e.timestamp := by
      intro x hx
      obtain ⟨_, _, hcross⟩ := List.pairwise_append.1 h
      exact hcross x hx e (List.mem_cons_self _ _)
    rw [List.map_cons, List.cons_append, runTrace_cons, runStep_app_mk,
      storeAppend_storeOf hBe,
      ih (B ++ [e]) c outs rest (by rw [List.append_assoc, List.singleton_append]; exact h),
      List.append_assoc, List.singleton_append]

theorem pairsOf_length (l : List TrafficLog) : (pairsOf l).length = l.length :=
  List.length_map l _

theorem storeOf_small {A : List TrafficLog} (h : A.length ≤ MAX_LOGS) :
    storeOf A = ⟨pairsOf A⟩ := by
  unfold storeOf
  rw [show A.length - MAX_LOGS = 0 by omega, List.drop_zero]

/-- A first incremental call (no cursor) against a store of at most
`MAX_LOGS` ascending events: it returns the newest `INCREMENTAL_LIMIT`
events (newest first) and advances the cursor to the newest timestamp, or
to `Date.now()` when the store is empty. -/
theorem incrementalCore_none_start (A : List TrafficLog) (t : Nat)
    (hasc : A.Pairwise (fun a b => a.timestamp < b.timestamp))
    (hsafe : ∀ e ∈ A, (e.timestamp : Int) ≤ MAX_SAFE_INTEGER)
    (hlenM : A.length ≤ MAX_LOGS) :
    incrementalCore none t (storeOf A)
      = ((A.drop (A.length - INCREMENTAL_LIMIT)).reverse,
          (match (A.drop (A.length - INCREMENTAL_LIMIT)).reverse with
            | [] => (t : Int)
            | lg :: _ => (lg.timestamp : Int))) := by
  have hq : getTrafficLogs (storeOf A) none none none none (some INCREMENTAL_LIMIT)
      = (A.drop (A.length - INCREMENTAL_LIMIT)).reverse := by
    rw [storeOf_small hlenM, getTrafficLogs_start_eval (pairsOf A) none INCREMENTAL_LIMIT
      (Or.inl rfl) (by intro h; exact absurd h (by decide))
      (by
        intro q hq
        obtain ⟨hts, hmem⟩ := mem_pairsOf hq
        rw [hts]
        exact hsafe q.2 hmem)
      (by rw [pairsOf_map_snd]; exact hasc)]
    rw [pairsOf_map_snd, pairsOf_length]
  unfold incrementalCore
  rw [hq]
  cases hrev : (A.drop (A.length - INCREMENTAL_LIMIT)).reverse with
  | nil => rfl
  | cons lg tl => rfl

/-- An incremental call whose cursor is at or past every stored score comes
back empty and echoes the cursor. -/
theorem incrementalCore_some_empty (A : List TrafficLog) (v : Int) (t : Nat)
    (hv : v ≠ 0) (hall : ∀ e ∈ A, (e.timestamp : Int) ≤ v) :
    incrementalCore (some v) t (storeOf A) = ([], v) := by
  have hq : getTrafficLogs (storeOf A) none none none (some v) (some INCREMENTAL_LIMIT)
      = [] := by
    have hsplit : storeOf A = ⟨(pairsOf A).drop (A.length - MAX_LOGS) ++ []⟩ := by
      unfold storeOf
      rw [List.append_nil]
    rw [hsplit, getTrafficLogs_cursor_eval _ _ v INCREMENTAL_LIMIT hv (by decide)
      (by
        intro q hq
        have hmem : q ∈ pairsOf A := (List.drop_sublist _ _).subset hq
        obtain ⟨hts, hm⟩ := mem_pairsOf hmem
        rw [hts]
        exact hall q.2 hm)
      (by intro q hq; simp at hq)
      (by simp)
      (by simp)]
    rfl
  unfold incrementalCore
  rw [hq]
  rfl

/-- C1 (amended): over any polling trace with strictly increasing,
safe-range instants in which at most `INCREMENTAL_LIMIT` (100) events are
appended before each incremental call and a call follows the last append,
every appended event is delivered exactly once and in insertion order:
the responses' `logs` arrays, each reversed from newest-first back to
insertion order and concatenated in response order, equal the list of
appended events. -/
theorem c1_incremental_polling_delivers_exactly_once (trace : List Step)
    (hchain : List.Chain' (fun a b => a < b) (0 :: trace.map stepTime))
    (hsafe : ∀ t ∈ trace.map stepTime, (t : Int) ≤ MAX_SAFE_INTEGER)
    (hwf : wfGaps 0 trace = true) :
    collected (runTrace initState trace) = appendedEvents trace := by
  have h0 : initState = ⟨storeOf [], none, []⟩ := rfl
  rw [h0, runTrace_collected trace [] none [] 0 0 traceInv_init hchain hsafe hwf]
  simp

/-- A concrete event for witnesses and counterexamples. -/
def mkEvent (t : Nat) (ep : String) : TrafficLog :=
  ⟨t, ep, "POST", "203.0.113.5", "203.0.113.5", "agent", false, 200, []⟩

def c1WitnessTrace : List Step :=
  [Step.app (mkEvent 1 "/api/auth/login"), Step.app (mkEvent 2 "/api/checkout"),
   Step.query 3, Step.app (mkEvent 4 "/api/auth/login"), Step.query 5]

theorem c1_witness :
    List.Chain' (fun a b => a < b) (0 :: c1WitnessTrace.map stepTime)
    ∧ (∀ t ∈ c1WitnessTrace.map stepTime, (t : Int) ≤ MAX_SAFE_INTEGER)
    ∧ wfGaps 0 c1WitnessTrace = true
    ∧ collected (runTrace initState c1WitnessTrace)
        = [mkEvent 1 "/api/auth/login", mkEvent 2 "/api/checkout",
           mkEvent 4 "/api/auth/login"] :=
  ⟨by simp [c1WitnessTrace, stepTime, List.chain'_cons, mkEvent], by decide, by decide,
    (c1_incremental_polling_delivers_exactly_once c1WitnessTrace
      (by simp [c1WitnessTrace, stepTime, List.chain'_cons, mkEvent]) (by decide)
      (by decide)).trans (by decide)⟩

def c1CexEvents : List TrafficLog :=
  (List.range 101).map (fun i => mkEvent (i + 1) "/api/auth/login")

def c1CexTrace : List Step :=
  c1CexEvents.map Step.app ++ [Step.query 102, Step.query 103]

theorem c1CexRunEval :
    collected (runTrace initState c1CexTrace) = c1CexEvents.drop 1 := by
  have hrun : runTrace initState c1CexTrace
      = runTrace ⟨storeOf c1CexEvents, none, []⟩ [Step.query 102, Step.query 103] := by
    show runTrace ⟨storeOf [], none, []⟩
      (c1CexEvents.map Step.app ++ [Step.query 102, Step.query 103]) = _
    rw [runTrace_apps c1CexEvents [] none [] _ (by decide), List.nil_append]
  rw [hrun, runTrace_cons, runStep_query_mk,
    incrementalCore_none_start c1CexEvents 102 (by decide) (by decide) (by decide)]
  have hlen : c1CexEvents.length - INCREMENTAL_LIMIT = 1 := by decide
  rw [hlen]
  have hhead : (c1CexEvents.drop 1).reverse.head? = some (mkEvent 101 "/api/auth/login") := by
    decide
  cases hrevc : (c1CexEvents.drop 1).reverse with
  | nil =>
    rw [hrevc] at hhead
    simp at hhead
  | cons lg tl =>
    rw [hrevc] at hhead
    have hlg : lg = mkEvent 101 "/api/auth/login" := by simpa using hhead
    dsimp only
    rw [hlg]
    rw [show ((mkEvent 101 "/api/auth/login").timestamp : Int) = (101 : Int) by decide]
    rw [runTrace_cons, runStep_query_mk,
      incrementalCore_some_empty c1CexEvents 101 103 (by decide) (by decide)]
    dsimp only
    rw [runTrace_nil]
    rw [show lg = mkEvent 101 "/api/auth/login" from hlg] at hrevc
    unfold collected
    dsimp only
    rw [← hrevc]
    simp
theorem c1_counterexample :
    (appendedEvents c1CexTrace).length = 101
    ∧ mkEvent 1 "/api/auth/login" ∈ appendedEvents c1CexTrace
    ∧ (collected (runTrace initState c1CexTrace)).length = 100
    ∧ mkEvent 1 "/api/auth/login" ∉ collected (runTrace initState c1CexTrace) := by
  refine ⟨by decide, by decide, ?_, ?_⟩
  · rw [c1CexRunEval]
    decide
  · rw [c1CexRunEval]
    decide

/-! ### Claim C2: cap invariant -/

/-- The store state after the `logTraffic` write sequence has run once per
event of `es` (in order) against an initially empty store; each event is
scored with its own (ingestion-time) timestamp. -/
def runAppends (es : List TrafficLog) : DetailStore :=
  es.foldl (fun st e => storeAppend e e.timestamp st) ⟨[]⟩

/-- The local-file store after the file logger's
`push` + `slice(-1000)`-when-over sequence has run once per event. -/
def fileStorePush (e : TrafficLog) (logs : List TrafficLog) : List TrafficLog :=
  let logs2 := logs ++ [e]
  if logs2.length > 1000 then keepLast 1000 logs2 else logs2

def fileRunAppends (es : List TrafficLog) : List TrafficLog :=
  es.foldl (fun logs e => fileStorePush e logs) []

theorem runAppends_from (es : List TrafficLog) :
    ∀ B : List TrafficLog,
    (B ++ es).Pairwise (fun a b => a.timestamp ≤ b.timestamp) →
    es.foldl (fun st e => storeAppend e e.timestamp st) (storeOf B) = storeOf (B ++ es) := by
  induction es with
  | nil =>
    intro B h
    simp [List.foldl]
  | cons e es ih =>
    intro B h
    have hBe : ∀ x ∈ B, x.timestamp ≤ e.timestamp := by
      intro x hx
      obtain ⟨_, _, hcross⟩ := List.pairwise_append.1 h
      exact hcross x hx e (List.mem_cons_self _ _)
    rw [List.foldl_cons, storeAppend_storeOf hBe,
      ih (B ++ [e]) (by rw [List.append_assoc, List.singleton_append]; exact h),
      List.append_assoc, List.singleton_append]

theorem fileRunAppends_from (es : List TrafficLog) :
    ∀ B : List TrafficLog, B.length ≤ 1000 →
    es.foldl (fun logs e => fileStorePush e logs) B
      = (B ++ es).drop ((B ++ es).length - 1000) := by
  induction es with
  | nil =>
    intro B hB
    rw [List.foldl_nil, List.append_nil, show B.length - 1000 = 0 by omega, List.drop_zero]
  | cons e es ih =>
    intro B hB
    have hpush : fileStorePush e B = (B ++ [e]).drop ((B ++ [e]).length - 1000) := by
      show (if (B ++ [e]).length > 1000 then keepLast 1000 (B ++ [e]) else (B ++ [e]))
        = (B ++ [e]).drop ((B ++ [e]).length - 1000)
      split
      · rfl
      · rename_i hc
        rw [show (B ++ [e]).length - 1000 = 0 by omega, List.drop_zero]
    have hlen2 : (fileStorePush e B).length ≤ 1000 := by
      rw [hpush, List.length_drop]
      omega
    rw [List.foldl_cons, ih (fileStorePush e B) hlen2, hpush]
    have hle : (B ++ [e]).length - 1000 ≤ (B ++ [e]).length := by omega
    rw [← List.drop_append_of_le_length hle, List.drop_drop]
    have hassoc : B ++ [e] ++ es = B ++ e :: es := by
      rw [List.append_assoc, List.singleton_append]
    rw [hassoc]
    have hidx : ((B ++ [e]).length - 1000)
        + (((B ++ e :: es).drop ((B ++ [e]).length - 1000)).length - 1000)
        = (B ++ e :: es).length - 1000 := by
      simp only [List.length_drop, List.length_append, List.length_cons, List.length_nil]
      omega
    rw [hidx]

/-- C2: after any sequence of appends with strictly increasing timestamps,
the sorted-set index holds exactly the `MAX_LOGS` most recent events (all of
them when fewer), hence at most 1000 entries; the file fallback keeps the
last 1000 records, truncated from the front. -/
theorem c2_cap_invariant (es : List TrafficLog)
    (hasc : es.Pairwise (fun a b => a.timestamp < b.timestamp)) :
    (runAppends es).entries = (pairsOf es).drop (es.length - MAX_LOGS)
    ∧ (runAppends es).entries.length ≤ MAX_LOGS
    ∧ fileRunAppends es = es.drop (es.length - 1000)
    ∧ (fileRunAppends es).length ≤ 1000 := by
  have h1 : runAppends es = storeOf es := by
    unfold runAppends
    rw [show (⟨[]⟩ : DetailStore) = storeOf [] from rfl,
      runAppends_from es [] (by
        rw [List.nil_append]
        exact hasc.imp (fun h => Nat.le_of_lt h)),
      List.nil_append]
  have h2 : fileRunAppends es = es.drop (es.length - 1000) := by
    unfold fileRunAppends
    have := fileRunAppends_from es [] (by simp)
    rw [List.nil_append] at this
    exact this
  refine ⟨?_, ?_, h2, ?_⟩
  · rw [h1]
    rfl
  · rw [h1, show (storeOf es).entries = (pairsOf es).drop (es.length - MAX_LOGS) from rfl,
      List.length_drop, pairsOf_length]
    omega
  · rw [h2, List.length_drop]
    omega

def c2WitnessEvents : List TrafficLog :=
  [mkEvent 1 "/api/auth/login", mkEvent 2 "/api/checkout", mkEvent 3 "/api/auth/login"]

theorem c2_witness :
    c2WitnessEvents.Pairwise (fun a b => a.timestamp < b.timestamp)
    ∧ (runAppends c2WitnessEvents).entries
        = (pairsOf c2WitnessEvents).drop (c2WitnessEvents.length - MAX_LOGS)
    ∧ fileRunAppends c2WitnessEvents = c2WitnessEvents.drop (c2WitnessEvents.length - 1000) :=
  ⟨by decide, (c2_cap_invariant c2WitnessEvents (by decide)).1,
    (c2_cap_invariant c2WitnessEvents (by decide)).2.2.1⟩

/-! ### Claim C3: tracked-endpoint handlers and the invalid-credentials bug -/

def demoUsers : List User :=
  [⟨1, "Demo User", "user@example.com", "K4sad@!"⟩,
   ⟨2, "Admin User", "admin@example.com", "K4sad@!"⟩]

/-- C3 evaluation: a login request with a known email but a wrong password
takes the invalid-credentials branch, whose `console.log` references the
undeclared `endpoint`/`status` and throws; the handler therefore performs
exactly one `logTraffic` call with status 500 (not 401) and responds 500
(not 401). -/
theorem c3_invalid_credentials_rejects_with_500 :
    loginPOST demoUsers (some ⟨"user@example.com", "wrong-password"⟩)
      = ([("/api/auth/login", 500)], 500)
    ∧ loginPOST demoUsers (some ⟨"user@example.com", "wrong-password"⟩)
      ≠ ([("/api/auth/login", 401)], 401) := by
  constructor
  · decide
  · decide

/-! ### Claim C4: client-IP resolution precedence -/

def c4CexRequest : Request :=
  ⟨"POST", ⟨[("cf-connecting-ip", "203.0.113.7"),
    ("x-forwarded-for", "198.51.100.1, 198.51.100.2")]⟩⟩

/-- C4 counterexample: the local-file logger's resolver ignores the trusted
edge header entirely — with both `cf-connecting-ip` and an
`x-forwarded-for` chain present it returns the chain's second entry. -/
theorem c4_counterexample :
    c4CexRequest.headers.get "cf-connecting-ip" = some "203.0.113.7"
    ∧ c4CexRequest.headers.get "x-forwarded-for" = some "198.51.100.1, 198.51.100.2"
    ∧ fileGetClientIp c4CexRequest = "198.51.100.2"
    ∧ "198.51.100.2" ≠ "203.0.113.7"
    ∧ "198.51.100.2" ∈ (splitComma "198.51.100.1, 198.51.100.2").map jsTrim := by
  refine ⟨rfl, rfl, ?_, by decide, by decide⟩
  decide

/-- C4 (amended): the durable-store resolver (`traffic-logger.ts`) does
satisfy the claim — a non-empty `cf-connecting-ip` wins over everything,
and with no recognized header it returns `"unknown"`; the file-fallback
resolver recognizes only `x-forwarded-for` and returns `"unknown"` when it
is absent (the counterexample shows it prefers the chain's second entry
even when a trusted edge header is present). -/
theorem c4_amended (r : Request) (v : String) :
    (r.headers.get "cf-connecting-ip" = some v → v ≠ "" → getClientIp r = v)
    ∧ (r.headers.get "cf-connecting-ip" = none → r.headers.get "x-real-ip" = none →
        r.headers.get "x-forwarded-for" = none → getClientIp r = "unknown")
    ∧ (r.headers.get "x-forwarded-for" = none → fileGetClientIp r = "unknown") := by
  refine ⟨?_, ?_, ?_⟩
  · intro hcf hv
    have ht : truthyStr (r.headers.get "cf-connecting-ip") = some v := by
      rw [hcf]
      show (if v = "" then (none : Option String) else some v) = some v
      rw [if_neg hv]
    unfold getClientIp
    rw [ht]
  · intro h1 h2 h3
    have t1 : truthyStr (r.headers.get "cf-connecting-ip") = none := by rw [h1]; rfl
    have t2 : truthyStr (r.headers.get "x-real-ip") = none := by rw [h2]; rfl
    have t3 : truthyStr (r.headers.get "x-forwarded-for") = none := by rw [h3]; rfl
    unfold getClientIp
    rw [t1, t2, t3]
  · intro h1
    have t1 : truthyStr (r.headers.get "x-forwarded-for") = none := by rw [h1]; rfl
    unfold fileGetClientIp
    rw [t1]

def c4WitnessRequest2 : Request := ⟨"GET", ⟨[("accept", "text/html")]⟩⟩

theorem c4_witness :
    getClientIp c4CexRequest = "203.0.113.7"
    ∧ getClientIp c4WitnessRequest2 = "unknown"
    ∧ fileGetClientIp c4WitnessRequest2 = "unknown" :=
  ⟨(c4_amended c4CexRequest "203.0.113.7").1 (by decide) (by decide),
   (c4_amended c4WitnessRequest2 "").2.1 (by decide) (by decide) (by decide),
   (c4_amended c4WitnessRequest2 "").2.2 (by decide)⟩

/-! ### Claim C5: numeric parameter validation -/

/-- A query-string value that `parseInt`s to a strictly positive number
(`!(isNaN(x) || x <= 0)`). -/
def parsesToPositive (s : String) : Bool :=
  match parseIntJS s with
  | none => false
  | some n => decide (0 < n)

/-- C5 counterexample: the full traffic query endpoint performs no numeric
validation at all — a non-numeric `timeWindow` is parsed to `NaN`, which is
simply falsy downstream, and the endpoint answers 200, not 400. -/
theorem c5_counterexample :
    parseIntJS "abc" = none
    ∧ (trafficGET true ⟨[]⟩ [] 0 none (some "abc") none none).1 = 200
    ∧ (trafficGET false ⟨[]⟩ [] 0 none (some "abc") none none).1 = 200 := by
  refine ⟨by decide, rfl, rfl⟩

/-- C5 (amended): the dashboard-data endpoint answers 400 whenever either
numeric parameter fails to parse to a positive integer; the incremental
endpoint answers 400 for a non-empty, non-numeric `since`; the full traffic
endpoint applies no numeric validation and (absent store exceptions) always
answers 200. -/
theorem c5_amended (wStr iStr : Option String) (nowS : Nat) (events : List TrafficLog)
    (sStr : String) (now2 : Nat) (st : DetailStore) (isProd : Bool) (st2 : DetailStore)
    (fl : List TrafficLog) (now3 : Nat) (epS twS mS bS : Option String) :
    (¬ (parsesToPositive (jsOrDefault wStr "10") = true
          ∧ parsesToPositive (jsOrDefault iStr "60") = true) →
      dashboardDataGET wStr iStr nowS events = DashResult.badRequest)
    ∧ (sStr ≠ "" → parseIntJS sStr = none →
        incrementalGET (some sStr) now2 st = IncResult.badRequest)
    ∧ (trafficGET isProd st2 fl now3 epS twS mS bS).1 = 200 := by
  refine ⟨?_, ?_, ?_⟩
  · intro hbad
    unfold dashboardDataGET
    cases hw : parseIntJS (jsOrDefault wStr "10") with
    | none => rfl
    | some w =>
      cases hi : parseIntJS (jsOrDefault iStr "60") with
      | none => rfl
      | some i =>
        have : w ≤ 0 ∨ i ≤ 0 := by
          by_contra hcon
          push_neg at hcon
          exact hbad ⟨by unfold parsesToPositive; rw [hw]; simpa using hcon.1,
            by unfold parsesToPositive; rw [hi]; simpa using hcon.2⟩
        dsimp only
        rw [if_pos this]
  · intro hne hnan
    unfold incrementalGET
    dsimp only
    rw [if_neg hne, hnan]
  · cases isProd with
    | true => rfl
    | false => rfl

theorem c5_witness :
    ¬ (parsesToPositive (jsOrDefault (some "abc") "10") = true
        ∧ parsesToPositive (jsOrDefault (some "60") "60") = true)
    ∧ dashboardDataGET (some "abc") (some "60") 1000 [] = DashResult.badRequest
    ∧ dashboardDataGET (some "0") none 1000 [] = DashResult.badRequest
    ∧ incrementalGET (some "xyz") 5 ⟨[]⟩ = IncResult.badRequest
    ∧ (trafficGET true ⟨[]⟩ [] 7 none none none none).1 = 200 :=
  ⟨by decide,
   (c5_amended (some "abc") (some "60") 1000 [] "xyz" 5 ⟨[]⟩ true ⟨[]⟩ [] 7
      none none none none).1 (by decide),
   (c5_amended (some "0") none 1000 [] "xyz" 5 ⟨[]⟩ true ⟨[]⟩ [] 7
      none none none none).1 (by decide),
   (c5_amended (some "0") none 1000 [] "xyz" 5 ⟨[]⟩ true ⟨[]⟩ [] 7
      none none none none).2.1 (by decide) (by decide),
   (c5_amended (some "0") none 1000 [] "xyz" 5 ⟨[]⟩ true ⟨[]⟩ [] 7
      none none none none).2.2⟩

/-! ### Claim C6: the Detail Store query contract -/

theorem filterEndpoint_length_le (o : Option String) (logs : List TrafficLog) :
    (filterEndpoint o logs).length ≤ logs.length := by
  cases o with
  | none => exact le_refl _
  | some e =>
    show (if e ≠ "" then logs.filter (fun lg => lg.endpoint == e) else logs).length ≤ _
    split
    · exact List.length_filter_le _ _
    · exact le_refl _

theorem filterMethod_length_le (o : Option String) (logs : List TrafficLog) :
    (filterMethod o logs).length ≤ logs.length := by
  cases o with
  | none => exact le_refl _
  | some m =>
    show (if m ≠ "" then logs.filter (fun lg => lg.method == m) else logs).length ≤ _
    split
    · exact List.length_filter_le _ _
    · exact le_refl _

theorem filterIsBot_length_le (o : Option Bool) (logs : List TrafficLog) :
    (filterIsBot o logs).length ≤ logs.length := by
  cases o with
  | none => exact le_refl _
  | some b => exact List.length_filter_le _ _

theorem applyLimit_some_length_le (lim : Nat) (ids : List (Nat × TrafficLog))
    (hlim : lim ≠ 0) : (applyLimit (some lim) ids).length ≤ lim := by
  rw [applyLimit_eq_drop lim ids hlim, List.length_drop]
  omega

def c6CexEvents : List TrafficLog :=
  (List.range 102).map (fun i => mkEvent i "/api/checkout")

/-- C6 counterexample: with `since = 0` (falsy in JS) the query keeps score
0 events — the timestamp-0 record is returned though its timestamp is not
strictly greater than `since` — and with `limit` omitted no cap at all is
applied: all 102 stored events come back, more than the claimed default of
100. -/
theorem c6_counterexample :
    (mkEvent 0 "/api/checkout").timestamp = 0
    ∧ getTrafficLogs (storeOf c6CexEvents) none none none (some 0) none
        = c6CexEvents.reverse
    ∧ (getTrafficLogs (storeOf c6CexEvents) none none none (some 0) none).length = 102
    ∧ mkEvent 0 "/api/checkout"
        ∈ getTrafficLogs (storeOf c6CexEvents) none none none (some 0) none := by
  have hq : getTrafficLogs (storeOf c6CexEvents) none none none (some 0) none
      = c6CexEvents.reverse := by
    rw [storeOf_small (by decide),
      getTrafficLogs_nolimit_eval (pairsOf c6CexEvents) (some 0) (Or.inr rfl)
        (by decide) (by decide), pairsOf_map_snd]
  refine ⟨rfl, hq, by rw [hq]; decide, by rw [hq]; decide⟩

/-- C6 (amended): for a well-formed store (scores equal record timestamps)
and a non-zero `since` `s`, every returned event's timestamp strictly
exceeds `s`; the result is sorted newest first; and a non-zero supplied
`limit` caps the result. (The code applies no default limit when the caller
omits it — the incremental endpoint passes 100 explicitly — and `since = 0`
is treated as absent; both shown by the counterexample.) -/
theorem c6_amended (st : DetailStore) (eo mo : Option String) (bo : Option Bool)
    (s : Int) (lim : Nat)
    (hWF : ∀ pr ∈ st.entries, pr.1 = pr.2.timestamp)
    (hs : s ≠ 0) (hlim : lim ≠ 0) :
    (∀ lg ∈ getTrafficLogs st eo mo bo (some s) (some lim), s < (lg.timestamp : Int))
    ∧ (getTrafficLogs st eo mo bo (some s) (some lim)).Pairwise
        (fun a b => b.timestamp ≤ a.timestamp)
    ∧ (getTrafficLogs st eo mo bo (some s) (some lim)).length ≤ lim := by
  refine ⟨?_, sortNewestFirst_sorted _, ?_⟩
  · intro lg hlg
    unfold getTrafficLogs at hlg
    have h1 := (sortNewestFirst_perm _).subset hlg
    have h2 := filterEndpoint_subset eo _ (filterMethod_subset mo _ (filterIsBot_subset bo _ h1))
    obtain ⟨pr, hpr, hpr2⟩ := List.mem_map.1 h2
    have h3 := applyLimit_subset (some lim) _ hpr
    have h4 := List.mem_filter.1 h3
    have h5 : scoreMin (some s) ≤ (pr.1 : Int) := by
      have hb := h4.2
      simp only [Bool.and_eq_true, decide_eq_true_eq] at hb
      exact hb.1
    rw [scoreMin_of_ne_zero hs] at h5
    have h6 : pr.1 = pr.2.timestamp := hWF pr h4.1
    rw [← hpr2, ← h6]
    omega
  · have e1 : (getTrafficLogs st eo mo bo (some s) (some lim)).length
        = (filterIsBot bo (filterMethod mo (filterEndpoint eo
            ((applyLimit (some lim) (st.entries.filter
              (fun p => decide (scoreMin (some s) ≤ (p.1 : Int))
                && decide ((p.1 : Int) ≤ MAX_SAFE_INTEGER)))).map (fun p => p.2))))).length :=
      (sortNewestFirst_perm _).length_eq
    rw [e1]
    refine le_trans (filterIsBot_length_le _ _) (le_trans (filterMethod_length_le _ _)
      (le_trans (filterEndpoint_length_le _ _) ?_))
    rw [List.length_map]
    exact applyLimit_some_length_le _ _ hlim

def c6WitnessStore : DetailStore :=
  storeOf [mkEvent 1 "/api/auth/login", mkEvent 5 "/api/checkout", mkEvent 9 "/api/auth/login"]

theorem c6_witness :
    (∀ pr ∈ c6WitnessStore.entries, pr.1 = pr.2.timestamp)
    ∧ (∀ lg ∈ getTrafficLogs c6WitnessStore none none none (some 4) (some 2),
        (4 : Int) < (lg.timestamp : Int))
    ∧ (getTrafficLogs c6WitnessStore none none none (some 4) (some 2)).Pairwise
        (fun a b => b.timestamp ≤ a.timestamp)
    ∧ (getTrafficLogs c6WitnessStore none none none (some 4) (some 2)).length ≤ 2 :=
  ⟨by decide,
   (c6_amended c6WitnessStore none none none 4 2 (by decide) (by decide) (by decide)).1,
   (c6_amended c6WitnessStore none none none 4 2 (by decide) (by decide) (by decide)).2.1,
   (c6_amended c6WitnessStore none none none 4 2 (by decide) (by decide) (by decide)).2.2⟩

/-! ### Claim C7: idempotent zero-result polling -/

/-- C7: when the store holds nothing newer than the cursor (the query comes
back empty), the incremental endpoint returns an empty `logs` array and
echoes the caller's `since` unchanged, so any number of repeated calls —
at any `Date.now()` values — return the identical empty response and the
cursor never regresses; on a first call (no `since`) with an empty result,
the endpoint returns the current time as the cursor. -/
theorem c7_zero_result_polling_is_stable (st : DetailStore) (s : Int) (now1 now2 : Nat)
    (h : getTrafficLogs st none none none (some s) (some INCREMENTAL_LIMIT) = []) :
    incrementalCore (some s) now1 st = ([], s)
    ∧ incrementalCore (some s) now2 st = ([], s)
    ∧ (∀ now3 : Nat, getTrafficLogs st none none none none (some INCREMENTAL_LIMIT) = [] →
        incrementalCore none now3 st = ([], (now3 : Int))) := by
  refine ⟨?_, ?_, ?_⟩
  · unfold incrementalCore
    rw [h]
    rfl
  · unfold incrementalCore
    rw [h]
    rfl
  · intro now3 h3
    unfold incrementalCore
    rw [h3]
    rfl

def c7WitnessStore : DetailStore := storeOf [mkEvent 3 "/api/auth/login"]

theorem c7_witness :
    getTrafficLogs c7WitnessStore none none none (some 3) (some INCREMENTAL_LIMIT) = []
    ∧ incrementalCore (some 3) 10 c7WitnessStore = ([], 3)
    ∧ incrementalCore (some 3) 11 c7WitnessStore = ([], 3) := by
  have h : getTrafficLogs c7WitnessStore none none none (some 3) (some INCREMENTAL_LIMIT)
      = [] :=
    congrArg Prod.fst
      (incrementalCore_some_empty [mkEvent 3 "/api/auth/login"] 3 10 (by decide) (by decide))
  exact ⟨h, (c7_zero_result_polling_is_stable c7WitnessStore 3 10 11 h).1,
    (c7_zero_result_polling_is_stable c7WitnessStore 3 10 11 h).2.1⟩

/-! ### Claim C9: write-path error swallowing -/

/-- C9: whatever combination of the three Redis writes throws, the caller
of `logTraffic` observes a normal return (the catch block swallows every
store error), while the uncaught body does propagate an exception exactly
when some write fails — so the caller's error branch is unreachable through
`logTraffic`, and with no failure the store is updated as usual. -/
theorem c9_log_traffic_never_throws (o : WriteOracle) (req : Request) (endpoint : String)
    (status : Nat) (now : Nat) (st : DetailStore) :
    (logTrafficCaught o req endpoint status now st).isOk = true
    ∧ (logTrafficAttempt o req endpoint status now st).isOk
        = (!o.setFails && !o.zaddFails && !o.zremFails)
    ∧ logTrafficCaught ⟨false, false, false⟩ req endpoint status now st
        = WriteOutcome.ok (logTraffic req endpoint status now st) := by
  refine ⟨?_, ?_, rfl⟩
  · unfold logTrafficCaught
    cases h : logTrafficAttempt o req endpoint status now st with
    | ok st2 => rfl
    | thrown st2 => rfl
  · unfold logTrafficAttempt
    cases hs : o.setFails with
    | true => rfl
    | false =>
      cases hz : o.zaddFails with
      | true => rfl
      | false =>
        cases hr : o.zremFails with
        | true => rfl
        | false => rfl

/-! ### Claim C10: the limit is applied before the filters -/

def c10Store : DetailStore :=
  storeOf [mkEvent 1 "/api/auth/login", mkEvent 2 "/api/auth/login", mkEvent 3 "/api/checkout"]

/-- C10: `getTrafficLogs` truncates the id list to the newest `limit`
entries before the endpoint filter runs — with `limit = 1` and two login
events in range, the single retained id is the newer checkout event, so the
call returns no events at all even though matching events exist. -/
theorem c10_filter_after_limit_truncation :
    getTrafficLogs c10Store (some "/api/auth/login") none none none (some 1) = []
    ∧ (c10Store.entries.filter (fun pr => pr.2.endpoint == "/api/auth/login")).length = 2
    ∧ (getTrafficLogs c10Store (some "/api/auth/login") none none none none).length = 2 := by
  refine ⟨?_, by decide, ?_⟩
  · unfold getTrafficLogs
    rw [show applyLimit (some 1) (c10Store.entries.filter
        (fun p => decide (scoreMin none ≤ (p.1 : Int))
          && decide ((p.1 : Int) ≤ MAX_SAFE_INTEGER)))
      = [(3, mkEvent 3 "/api/checkout")] by decide]
    rw [show filterIsBot none (filterMethod none (filterEndpoint (some "/api/auth/login")
        (List.map (fun p => p.2) [(3, mkEvent 3 "/api/checkout")])))
      = ([] : List TrafficLog) by decide]
    rw [sortNewestFirst_of_ascending List.Pairwise.nil]
    rfl
  · have hq : getTrafficLogs c10Store (some "/api/auth/login") none none none none
        = [mkEvent 2 "/api/auth/login", mkEvent 1 "/api/auth/login"] := by
      unfold getTrafficLogs
      rw [show (filterIsBot none (filterMethod none (filterEndpoint (some "/api/auth/login")
        ((applyLimit none (c10Store.entries.filter
          (fun p => decide (scoreMin none ≤ (p.1 : Int))
            && decide ((p.1 : Int) ≤ MAX_SAFE_INTEGER)))).map (fun p => p.2)))))
        = [mkEvent 1 "/api/auth/login", mkEvent 2 "/api/auth/login"] by decide]
      rw [sortNewestFirst_of_ascending (by decide)]
      rfl
    rw [hq]
    rfl

/-! ### Claim C8: aggregate additivity (Counter Store vs Detail Store) -/

theorem range_sum_add (u v : Nat → Nat) (m : Nat) :
    ((List.range m).map (fun j => u j + v j)).sum
      = ((List.range m).map u).sum + ((List.range m).map v).sum := by
  induction m with
  | zero => simp
  | succ m ih =>
    rw [List.range_succ]
    simp only [List.map_append, List.sum_append, List.map_cons, List.map_nil,
      List.sum_cons, List.sum_nil, ih]
    omega

theorem range_mul_sum (f : Nat → Nat) (n w : Nat) :
    ((List.range (n * w)).map f).sum
      = ((List.range n).map (fun i => ((List.range w).map (fun j => f (i * w + j))).sum)).sum := by
  induction n with
  | zero => simp
  | succ n ih =>
    rw [Nat.succ_mul, List.range_add, List.range_succ]
    simp only [List.map_append, List.sum_append, List.map_cons, List.map_nil,
      List.sum_cons, List.sum_nil, List.map_map, ih]
    rfl

theorem range_sum_ite_lt (g : Nat → Nat) (m d : Nat) (hmd : d ≤ m) :
    ((List.range m).map (fun k => if k < d then g k else 0)).sum
      = ((List.range d).map g).sum := by
  induction m with
  | zero =>
    have hd : d = 0 := by omega
    rw [hd]
    rfl
  | succ m ih =>
    rcases Nat.lt_or_ge d (m + 1) with hlt | hge
    · have hdm : d ≤ m := by omega
      rw [List.range_succ]
      simp only [List.map_append, List.sum_append, List.map_cons, List.map_nil,
        List.sum_cons, List.sum_nil]
      rw [if_neg (by omega), ih hdm]
      omega
    · have hdm : d = m + 1 := by omega
      subst hdm
      rw [List.range_succ]
      simp only [List.map_append, List.sum_append, List.map_cons, List.map_nil,
        List.sum_cons, List.sum_nil]
      rw [if_pos (by omega)]
      congr 2
      apply List.map_congr_left
      intro k hk
      rw [if_pos (by have := List.mem_range.1 hk; omega)]

theorem sum_indicator_single (a start d : Nat) :
    ((List.range d).map (fun k => if a = start + k then 1 else 0)).sum
      = if start ≤ a ∧ a < start + d then 1 else 0 := by
  induction d with
  | zero =>
    rw [if_neg (by omega)]
    rfl
  | succ d ih =>
    rw [List.range_succ]
    simp only [List.map_append, List.sum_append, List.map_cons, List.map_nil,
      List.sum_cons, List.sum_nil, ih]
    by_cases h1 : a = start + d
    · rw [if_pos h1, if_neg (by omega), if_pos (by omega)]
      omega
    · rw [if_neg h1]
      by_cases h2 : start ≤ a ∧ a < start + d
      · rw [if_pos h2, if_pos (by omega)]
        omega
      · rw [if_neg h2, if_neg (by omega)]
        omega

theorem numBuckets_mul_ge (startS endS w : Nat) (hw : 0 < w) :
    endS - startS ≤ numBuckets startS endS w * w := by
  unfold numBuckets
  rcases Nat.eq_zero_or_pos (endS - startS) with h0 | hpos
  · rw [h0]
    omega
  · rw [show endS - startS + w - 1 = (endS - startS - 1) + w by omega,
      Nat.add_div_right _ hw]
    have hdiv : (endS - startS - 1) / w < (endS - startS - 1) / w + 1 := Nat.lt_succ_self _
    have hlt := (Nat.div_lt_iff_lt_mul hw).1 hdiv
    omega

theorem c8_per_event (e : TrafficLog) (start d : Nat) :
    ((List.range d).map (fun k =>
      (if (e.endpoint == "/api/auth/login" && (eventSecond e == start + k)) = true
        then 1 else 0)
      + (if (e.endpoint == "/api/checkout" && (eventSecond e == start + k)) = true
        then 1 else 0))).sum
    = if (decide (e.endpoint ∈ trackedEndpoints) && decide (start ≤ eventSecond e)
        && decide (eventSecond e < start + d)) = true then 1 else 0 := by
  by_cases hL : e.endpoint = "/api/auth/login"
  · have hLt : (e.endpoint == "/api/auth/login") = true := by rw [hL]; decide
    have hC : (e.endpoint == "/api/checkout") = false := by rw [hL]; decide
    have htr : decide (e.endpoint ∈ trackedEndpoints) = true := by
      rw [hL]; decide
    simp only [hLt, hC, htr, Bool.true_and, Bool.false_and, Bool.false_eq_true, if_false,
      Nat.add_zero, beq_iff_eq, Bool.and_eq_true, decide_eq_true_eq]
    rw [show (fun k => if eventSecond e = start + k then 1 else 0)
        = (fun k => if eventSecond e = start + k then 1 else 0) from rfl,
      sum_indicator_single]
  · by_cases hK : e.endpoint = "/api/checkout"
    · have hLt : (e.endpoint == "/api/auth/login") = false := by rw [hK]; decide
      have hC : (e.endpoint == "/api/checkout") = true := by rw [hK]; decide
      have htr : decide (e.endpoint ∈ trackedEndpoints) = true := by
        rw [hK]; decide
      simp only [hLt, hC, htr, Bool.true_and, Bool.false_and, Bool.false_eq_true, if_false,
        Nat.zero_add, beq_iff_eq, Bool.and_eq_true, decide_eq_true_eq]
      rw [sum_indicator_single]
    · have hLt : (e.endpoint == "/api/auth/login") = false := by
        simp [hL]
      have hC : (e.endpoint == "/api/checkout") = false := by
        simp [hK]
      have htr : decide (e.endpoint ∈ trackedEndpoints) = false := by
        simp [trackedEndpoints, hL, hK]
      simp [hLt, hC, htr]

theorem c8_sum_counts (events : List TrafficLog) (start d : Nat) :
    ((List.range d).map (fun k =>
      events.countP (fun e => e.endpoint == "/api/auth/login" && eventSecond e == start + k)
      + events.countP (fun e => e.endpoint == "/api/checkout" && eventSecond e == start + k))).sum
    = events.countP (fun e => decide (e.endpoint ∈ trackedEndpoints)
        && decide (start ≤ eventSecond e) && decide (eventSecond e < start + d)) := by
  induction events with
  | nil => simp
  | cons e evs ih =>
    simp only [List.countP_cons]
    have hre : ((List.range d).map (fun k =>
        (evs.countP (fun x => x.endpoint == "/api/auth/login" && eventSecond x == start + k)
          + (if (e.endpoint == "/api/auth/login" && (eventSecond e == start + k)) = true
            then 1 else 0))
        + (evs.countP (fun x => x.endpoint == "/api/checkout" && eventSecond x == start + k)
          + (if (e.endpoint == "/api/checkout" && (eventSecond e == start + k)) = true
            then 1 else 0))))
      = ((List.range d).map (fun k =>
        (evs.countP (fun x => x.endpoint == "/api/auth/login" && eventSecond x == start + k)
          + evs.countP (fun x => x.endpoint == "/api/checkout" && eventSecond x == start + k))
        + ((if (e.endpoint == "/api/auth/login" && (eventSecond e == start + k)) = true
            then 1 else 0)
          + (if (e.endpoint == "/api/checkout" && (eventSecond e == start + k)) = true
            then 1 else 0)))) := by
      apply List.map_congr_left
      intro k _
      omega
    rw [hre, range_sum_add, ih, c8_per_event]

/-- C8: over a window `[startS, endS)` inside the Counter Store's retention
horizon, the dashboard aggregation's bucket totals (login + checkout) sum
to exactly the number of tracked-endpoint events whose second falls in the
window, as recorded individually per event. -/
theorem c8_aggregate_additivity (startS endS w : Nat) (events : List TrafficLog)
    (hw : 0 < w) (hse : startS ≤ endS)
    (hret : endS ≤ startS + COUNTER_RETENTION_SECONDS) :
    ((getDashboardTrafficCounts startS endS w events).map
        (fun b => b.loginCount + b.checkoutCount)).sum
      = (events.filter (fun e => decide (e.endpoint ∈ trackedEndpoints)
          && decide (startS ≤ eventSecond e) && decide (eventSecond e < endS))).length := by
  rw [← List.countP_eq_length_filter]
  unfold getDashboardTrafficCounts
  rw [List.map_map]
  have hstep1 : ((List.range (numBuckets startS endS w)).map
      ((fun b : DashboardBucket => b.loginCount + b.checkoutCount) ∘ (fun i =>
        ⟨startS + i * w,
         bucketTotal events endS "/api/auth/login" (startS + i * w) w endS,
         bucketTotal events endS "/api/checkout" (startS + i * w) w endS⟩)))
      = ((List.range (numBuckets startS endS w)).map (fun i =>
        ((List.range w).map (fun j =>
          (fun k => if startS + k < endS
            then events.countP
                (fun e => e.endpoint == "/api/auth/login" && eventSecond e == startS + k)
              + events.countP
                (fun e => e.endpoint == "/api/checkout" && eventSecond e == startS + k)
            else 0) (i * w + j))).sum)) := by
    apply List.map_congr_left
    intro i _
    show bucketTotal events endS "/api/auth/login" (startS + i * w) w endS
        + bucketTotal events endS "/api/checkout" (startS + i * w) w endS = _
    unfold bucketTotal
    rw [← range_sum_add]
    apply congrArg List.sum
    apply List.map_congr_left
    intro j _
    show _ = if startS + (i * w + j) < endS
      then events.countP
          (fun e => e.endpoint == "/api/auth/login" && eventSecond e == startS + (i * w + j))
        + events.countP
          (fun e => e.endpoint == "/api/checkout" && eventSecond e == startS + (i * w + j))
      else 0
    rw [← Nat.add_assoc]
    by_cases hc : startS + i * w + j < endS
    · rw [if_pos hc, if_pos hc, if_pos hc]
      unfold counterValue
      rw [if_pos (by have : COUNTER_RETENTION_SECONDS = 900 := rfl; omega),
        if_pos (by have : COUNTER_RETENTION_SECONDS = 900 := rfl; omega)]
      rw [← List.countP_eq_length_filter, ← List.countP_eq_length_filter]
    · rw [if_neg hc, if_neg hc, if_neg hc]
  rw [hstep1, (range_mul_sum (fun k => if startS + k < endS
      then events.countP
          (fun e => e.endpoint == "/api/auth/login" && eventSecond e == startS + k)
        + events.countP
          (fun e => e.endpoint == "/api/checkout" && eventSecond e == startS + k)
      else 0) (numBuckets startS endS w) w).symm]
  have hstep2 : ((List.range (numBuckets startS endS w * w)).map
      (fun k => if startS + k < endS
        then events.countP
            (fun e => e.endpoint == "/api/auth/login" && eventSecond e == startS + k)
          + events.countP
            (fun e => e.endpoint == "/api/checkout" && eventSecond e == startS + k)
        else 0))
      = ((List.range (numBuckets startS endS w * w)).map
      (fun k => if k < endS - startS
        then (fun k2 => events.countP
            (fun e => e.endpoint == "/api/auth/login" && eventSecond e == startS + k2)
          + events.countP
            (fun e => e.endpoint == "/api/checkout" && eventSecond e == startS + k2)) k
        else 0)) := by
    apply List.map_congr_left
    intro k _
    by_cases hc : startS + k < endS
    · rw [if_pos hc, if_pos (by omega)]
    · rw [if_neg hc, if_neg (by omega)]
  rw [hstep2, range_sum_ite_lt _ _ _ (numBuckets_mul_ge startS endS w hw),
    c8_sum_counts events startS (endS - startS),
    show startS + (endS - startS) = endS by omega]

def c8WitnessEvents : List TrafficLog :=
  [mkEvent 2000 "/api/auth/login", mkEvent 2100 "/api/auth/login",
   mkEvent 2200 "/api/auth/login", mkEvent 7000 "/api/checkout"]

theorem c8_witness :
    0 < 5 ∧ (0 : Nat) ≤ 10 ∧ 10 ≤ 0 + COUNTER_RETENTION_SECONDS
    ∧ ((getDashboardTrafficCounts 0 10 5 c8WitnessEvents).map
        (fun b => b.loginCount + b.checkoutCount)).sum
      = (c8WitnessEvents.filter (fun e => decide (e.endpoint ∈ trackedEndpoints)
          && decide (0 ≤ eventSecond e) && decide (eventSecond e < 10))).length :=
  ⟨by decide, by decide, by decide,
   c8_aggregate_additivity 0 10 5 c8WitnessEvents (by decide) (by decide) (by decide)⟩
